import Mathlib

/-!
Traffic accounting of `experimental/ssmapi`: a shallow embedding of `traffic.go`
(the `TrafficManager`) together with the read side used by `api.go`.

* A Go `map[string]T` is an association list with unique keys.
* A `*atomic.Int64` is an address into a heap of `int64` cells; `Add` wraps
  around at 64 bits exactly as Go's signed addition does.
* Concurrency is modelled by interleaving: every method of the manager that
  holds `userAccess`, and every atomic `Add`, is one step of a trace.
-/

namespace Ssmapi

/-! ## Go maps with string keys -/

/-- A Go `map[string]T`: the entries, at most one per key. -/
abbrev GoMap (α : Type) := List (String × α)

/-- The two-valued lookup `v, loaded := m[k]`. -/
def mapGet {α : Type} : GoMap α → String → Option α
  | [], _ => none
  | (k', v) :: rest, k => if k' = k then some v else mapGet rest k

/-- The entries of `m` under keys other than `k`. -/
def mapErase {α : Type} : GoMap α → String → GoMap α
  | [], _ => []
  | (k', v) :: rest, k => if k' = k then mapErase rest k else (k', v) :: mapErase rest k

/-- The assignment `m[k] = v`. -/
def mapPut {α : Type} (m : GoMap α) (k : String) (v : α) : GoMap α :=
  (k, v) :: mapErase m k

/-- The keys of a map. -/
def mapKeys {α : Type} (m : GoMap α) : List String := m.map Prod.fst

/-- The one-valued lookup `m[k]` of a `map[string]bool`: `false` when absent
(also on the nil map). -/
def mapBool (m : GoMap Bool) (k : String) : Bool := (mapGet m k).getD false

/-! ## Atomic 64-bit counters -/

/-! An `*atomic.Int64` is a natural number, the address of its cell. -/

/-- The cells of all `atomic.Int64` values allocated so far. -/
abbrev Heap := List Int

/-- Reduction of an integer to the `int64` it is stored as. -/
def wrapInt64 (x : Int) : Int := (x + 2 ^ 63) % 2 ^ 64 - 2 ^ 63

/-- The call `atomic.NewInt64(v)`: a fresh cell. -/
def atomicNewInt64 (h : Heap) (v : Int) : Nat × Heap := (h.length, h ++ [v])

/-- The call `c.Load()`. -/
def atomicLoad (h : Heap) (c : Nat) : Int := h.getD c 0

/-- The call `c.Add(delta)`: 64-bit signed addition. -/
def atomicAdd (h : Heap) (c : Nat) (delta : Int) : Heap :=
  h.set c (wrapInt64 (h.getD c 0 + delta))

/-! ## The manager -/

/-- The part of the `Node` interface the manager uses. -/
structure Node where
  Tag : String
  Protocol : String
deriving DecidableEq, Repr

/-- The fields of `adapter.InboundContext` the manager reads. -/
structure InboundContext where
  Inbound : String
  User : String
deriving DecidableEq, Repr

/-- The `TrafficManager` struct (`userAccess` is the step granularity). -/
structure TrafficManager where
  nodeTags : GoMap Bool
  nodeUsers : GoMap Bool
  globalUplink : Nat
  globalDownlink : Nat
  userUplink : GoMap Nat
  userDownlink : GoMap Nat
deriving DecidableEq, Repr

/-- The constructor `NewTrafficManager(nodes)`: the manager, and the heap with
its two global counters allocated. -/
def NewTrafficManager (nodes : List Node) (h : Heap) : TrafficManager × Heap :=
  let (up, h1) := atomicNewInt64 h 0
  let (down, h2) := atomicNewInt64 h1 0
  ({ nodeTags := nodes.foldl (fun m node => mapPut m node.Tag true) []
     nodeUsers := []
     globalUplink := up
     globalDownlink := down
     userUplink := []
     userDownlink := [] }, h2)

/-- The method `UpdateUsers(users)`. -/
def UpdateUsers (s : TrafficManager) (users : List String) : TrafficManager :=
  { s with nodeUsers := users.foldl (fun m user => mapPut m user true) [] }

/-- The method `userCounter(user)`: the two counters, the manager and the heap after. -/
def userCounter (s : TrafficManager) (h : Heap) (user : String) :
    (Nat × Nat) × TrafficManager × Heap :=
  let (upCounter, s1, h1) :=
    match mapGet s.userUplink user with
    | some c => (c, s, h)
    | none =>
      let (c, h') := atomicNewInt64 h 0
      (c, { s with userUplink := mapPut s.userUplink user c }, h')
  let (downCounter, s2, h2) :=
    match mapGet s1.userDownlink user with
    | some c => (c, s1, h1)
    | none =>
      let (c, h') := atomicNewInt64 h1 0
      (c, { s1 with userDownlink := mapPut s1.userDownlink user c }, h')
  ((upCounter, downCounter), s2, h2)

/-- What a routing call hands back: the connection it was given, or a
`trackerconn` wrapper around it holding the two counter lists. -/
inductive Routed where
  | original (conn : Nat)
  | tracker (conn : Nat) (readCounter writeCounter : List Nat)
  | packetTracker (conn : Nat) (readCounter writeCounter : List Nat)
deriving DecidableEq, Repr

/-- The method `RoutedConnection(metadata, conn)`: the connection handed back, the manager
and the heap after the call. -/
def RoutedConnection (s : TrafficManager) (h : Heap) (metadata : InboundContext)
    (conn : Nat) : Routed × TrafficManager × Heap :=
  let (readCounter, writeCounter) :=
    if mapBool s.nodeTags metadata.Inbound then
      ([s.globalUplink], [s.globalDownlink])
    else (([] : List Nat), ([] : List Nat))
  let ((readCounter, writeCounter), s1, h1) :=
    if mapBool s.nodeUsers metadata.User then
      let ((upCounter, downCounter), s1, h1) := userCounter s h metadata.User
      ((readCounter ++ [upCounter], writeCounter ++ [downCounter]), s1, h1)
    else
      ((readCounter, writeCounter), s, h)
  if readCounter.length > 0 then
    (Routed.tracker conn readCounter writeCounter, s1, h1)
  else
    (Routed.original conn, s1, h1)

/-- The method `RoutedPacketConnection(metadata, conn)`: the connection handed back, the
manager and the heap after the call. -/
def RoutedPacketConnection (s : TrafficManager) (h : Heap) (metadata : InboundContext)
    (conn : Nat) : Routed × TrafficManager × Heap :=
  let (readCounter, writeCounter) :=
    if mapBool s.nodeTags metadata.Inbound then
      ([s.globalUplink], [s.globalDownlink])
    else (([] : List Nat), ([] : List Nat))
  let ((readCounter, writeCounter), s1, h1) :=
    if mapBool s.nodeUsers metadata.User then
      let ((upCounter, downCounter), s1, h1) := userCounter s h metadata.User
      ((readCounter ++ [upCounter], writeCounter ++ [downCounter]), s1, h1)
    else
      ((readCounter, writeCounter), s, h)
  if readCounter.length > 0 then
    (Routed.packetTracker conn readCounter writeCounter, s1, h1)
  else
    (Routed.original conn, s1, h1)

/-- The method `ReadUser(user)`. -/
def ReadUser (s : TrafficManager) (h : Heap) (user : String) : Int × Int :=
  let uplink :=
    match mapGet s.userUplink user with
    | some c => atomicLoad h c
    | none => 0
  let downlink :=
    match mapGet s.userDownlink user with
    | some c => atomicLoad h c
    | none => 0
  (uplink, downlink)

/-- The method `ReadUsers(users)`: the loop appends one element to each list per user. -/
def ReadUsers (s : TrafficManager) (h : Heap) (users : List String) :
    List Int × List Int :=
  users.foldl
    (fun acc user =>
      let uplink :=
        match mapGet s.userUplink user with
        | some c => atomicLoad h c
        | none => 0
      let downlink :=
        match mapGet s.userDownlink user with
        | some c => atomicLoad h c
        | none => 0
      (acc.1 ++ [uplink], acc.2 ++ [downlink]))
    ([], [])

/-- The method `ReadGlobal()`. -/
def ReadGlobal (s : TrafficManager) (h : Heap) : Int × Int :=
  (atomicLoad h s.globalUplink, atomicLoad h s.globalDownlink)

/-! ## Routed connections and their traffic -/

/-- The upload counters a routed connection carries. -/
def Routed.readCounter : Routed → List Nat
  | .original _ => []
  | .tracker _ rc _ => rc
  | .packetTracker _ rc _ => rc

/-- The download counters a routed connection carries. -/
def Routed.writeCounter : Routed → List Nat
  | .original _ => []
  | .tracker _ _ wc => wc
  | .packetTracker _ _ wc => wc

/-- Modelled from the spec: the accounting loop of the `trackerconn` wrappers,
which are not among the sources. After a transfer of `n` bytes the wrapper
runs `counter.Add(int64(n))` on every counter of the list, in order. -/
def addAll (h : Heap) (cs : List Nat) (n : Nat) : Heap :=
  cs.foldl (fun h' c => atomicAdd h' c (n : Int)) h

/-- Modelled from the spec: a successful read of `n` bytes through a routed
connection adds `n` to every upload counter; the unwrapped connection counts
nothing. -/
def connRead (r : Routed) (n : Nat) (h : Heap) : Heap := addAll h r.readCounter n

/-- Modelled from the spec: a successful write of `n` bytes through a routed
connection adds `n` to every download counter. -/
def connWrite (r : Routed) (n : Nat) (h : Heap) : Heap := addAll h r.writeCounter n

/-! ## The manager with its live connections, as a transition system -/

/-- The manager, the counter cells, and the connections routed so far (the
`i`-th routing call produced `conns[i]`). -/
structure System where
  manager : TrafficManager
  heap : Heap
  conns : List Routed
deriving DecidableEq, Repr

/-- One atomic step of some goroutine. -/
inductive Event where
  | updateUsers (users : List String)
  | routedConnection (metadata : InboundContext) (conn : Nat)
  | routedPacketConnection (metadata : InboundContext) (conn : Nat)
  | read (i : Nat) (n : Nat)
  | write (i : Nat) (n : Nat)
  | readUser (user : String)
  | readUsers (users : List String)
  | readGlobal
deriving DecidableEq, Repr

/-- The effect of one event. -/
def step (st : System) : Event → System
  | .updateUsers users => { st with manager := UpdateUsers st.manager users }
  | .routedConnection metadata conn =>
    let (r, s1, h1) := RoutedConnection st.manager st.heap metadata conn
    { manager := s1, heap := h1, conns := st.conns ++ [r] }
  | .routedPacketConnection metadata conn =>
    let (r, s1, h1) := RoutedPacketConnection st.manager st.heap metadata conn
    { manager := s1, heap := h1, conns := st.conns ++ [r] }
  | .read i n =>
    match st.conns[i]? with
    | some r => { st with heap := connRead r n st.heap }
    | none => st
  | .write i n =>
    match st.conns[i]? with
    | some r => { st with heap := connWrite r n st.heap }
    | none => st
  | .readUser _ => st
  | .readUsers _ => st
  | .readGlobal => st

/-- The effect of a trace, one event after the other. -/
def run (st : System) (evs : List Event) : System := evs.foldl step st

/-- The system right after `NewTrafficManager(nodes)`. -/
def boot (nodes : List Node) : System :=
  let (s, h) := NewTrafficManager nodes []
  { manager := s, heap := h, conns := [] }

/-- Whether the event is a routing call for `user`. -/
def Event.routes (user : String) : Event → Bool
  | .routedConnection metadata _ => decide (metadata.User = user)
  | .routedPacketConnection metadata _ => decide (metadata.User = user)
  | _ => false

/-- Whether the event is a transfer through one of the connections `lo ≤ i < hi`. -/
def Event.transfers (lo hi : Nat) : Event → Bool
  | .read i _ => decide (lo ≤ i ∧ i < hi)
  | .write i _ => decide (lo ≤ i ∧ i < hi)
  | _ => false

/-- The bytes read in a trace. -/
def readTotal : List Event → Nat
  | [] => 0
  | .read _ n :: rest => n + readTotal rest
  | _ :: rest => readTotal rest

/-- The bytes written in a trace. -/
def writeTotal : List Event → Nat
  | [] => 0
  | .write _ n :: rest => n + writeTotal rest
  | _ :: rest => writeTotal rest

/-! ## The read handlers of the management API -/

/-- The `SSMUserObject` struct. -/
structure SSMUserObject where
  UserName : String
  Password : String
  DownlinkBytes : Int
  UplinkBytes : Int
deriving DecidableEq, Repr

/-- The loop `for i := range users` of `getUsers` and `getDataUsage` from index
`i` on; `none` is an index out of range. `clear` is the extra assignment
`users[i].Password = ""` of `getDataUsage`. -/
def fillUsage (clear : Bool) (uplinkList downlinkList : List Int) :
    Nat → List SSMUserObject → Option (List SSMUserObject)
  | _, [] => some []
  | i, u :: rest =>
    match downlinkList[i]?, uplinkList[i]?, fillUsage clear uplinkList downlinkList (i + 1) rest with
    | some d, some up, some rest' =>
      some ({ u with Password := if clear then "" else u.Password
                     DownlinkBytes := d
                     UplinkBytes := up } :: rest')
    | _, _, _ => none

/-- The users rendered by `getUsers`, given the list `userManager.List()`. -/
def getUsers (s : TrafficManager) (h : Heap) (users : List SSMUserObject) :
    Option (List SSMUserObject) :=
  let (uplinkList, downlinkList) := ReadUsers s h (users.map (fun it => it.UserName))
  fillUsage false uplinkList downlinkList 0 users

/-- The totals and users rendered by `getDataUsage`: downlink, uplink, users. -/
def getDataUsage (s : TrafficManager) (h : Heap) (users : List SSMUserObject) :
    Option (Int × Int × List SSMUserObject) :=
  let (uplinkList, downlinkList) := ReadUsers s h (users.map (fun it => it.UserName))
  match fillUsage true uplinkList downlinkList 0 users with
  | some users' =>
    let (uplink, downlink) := ReadGlobal s h
    some (downlink, uplink, users')
  | none => none

/-- The routing call for a stream (`packet = false`) or a datagram
(`packet = true`) connection. -/
def routeEvent (packet : Bool) (metadata : InboundContext) (conn : Nat) : Event :=
  if packet then .routedPacketConnection metadata conn else .routedConnection metadata conn

/-- Whether the event is a method of the manager, not a transfer through a
routed connection. -/
def Event.isManagerOp : Event → Bool
  | .read _ _ => false
  | .write _ _ => false
  | _ => true

/-- The `metadata.User` of a routing call. -/
def Event.routedUser : Event → Option String
  | .routedConnection metadata _ => some metadata.User
  | .routedPacketConnection metadata _ => some metadata.User
  | _ => none

/-- Whether, along the trace from `st`, every routing call for `user` is made
while `user` is not in the metered-user set. -/
def neverRoutedMetered (user : String) : System → List Event → Bool
  | _, [] => true
  | st, e :: rest =>
    (!(e.routes user) || !(mapBool st.manager.nodeUsers user)) &&
      neverRoutedMetered user (step st e) rest

/-- The two counter lists, the manager and the heap that the statements of
a routing call before its final test compute; both routing calls are shown
to agree with it (`RoutedConnection_eq`, `RoutedPacketConnection_eq`). -/
def routeCounters (s : TrafficManager) (h : Heap) (metadata : InboundContext) :
    (List Nat × List Nat) × TrafficManager × Heap :=
  let (readCounter, writeCounter) :=
    if mapBool s.nodeTags metadata.Inbound then
      ([s.globalUplink], [s.globalDownlink])
    else (([] : List Nat), ([] : List Nat))
  if mapBool s.nodeUsers metadata.User then
    let ((upCounter, downCounter), s1, h1) := userCounter s h metadata.User
    ((readCounter ++ [upCounter], writeCounter ++ [downCounter]), s1, h1)
  else
    ((readCounter, writeCounter), s, h)

/-- The routed connection counts toward the counter pair `(up, down)` exactly
once in each direction: `up` is among its upload counters, `down` among its
download counters, neither is in the other list, and no list repeats a
counter. -/
def Routed.Feeds (r : Routed) (up down : Nat) : Prop :=
  r.readCounter.Nodup ∧ r.writeCounter.Nodup ∧
  up ∈ r.readCounter ∧ up ∉ r.writeCounter ∧
  down ∈ r.writeCounter ∧ down ∉ r.readCounter

/-! ## The invariant of the reachable states -/

/-- What holds of the manager and the heap in every reachable state: the two
registry maps have the same keys, each once; every counter the manager holds
is allocated; the global counters and the users' counters are all different
cells; every cell holds an `int64`. -/
structure Inv (s : TrafficManager) (h : Heap) : Prop where
  keys : mapKeys s.userUplink = mapKeys s.userDownlink
  keysNodup : (mapKeys s.userUplink).Nodup
  globalUp : s.globalUplink < h.length
  globalDown : s.globalDownlink < h.length
  globalNe : s.globalUplink ≠ s.globalDownlink
  upOwned : ∀ k c, mapGet s.userUplink k = some c →
    c < h.length ∧ c ≠ s.globalUplink ∧ c ≠ s.globalDownlink
  downOwned : ∀ k c, mapGet s.userDownlink k = some c →
    c < h.length ∧ c ≠ s.globalUplink ∧ c ≠ s.globalDownlink
  upDown : ∀ k k' c c', mapGet s.userUplink k = some c →
    mapGet s.userDownlink k' = some c' → c ≠ c'
  range : ∀ p, -2 ^ 63 ≤ atomicLoad h p ∧ atomicLoad h p < 2 ^ 63

/-! ## Facts about maps -/

theorem mapErase_of_get_none {α : Type} (m : GoMap α) (k : String)
    (h : mapGet m k = none) : mapErase m k = m := by
  induction m with
  | nil => rfl
  | cons e rest ih =>
    obtain ⟨k', v⟩ := e
    by_cases hk : k' = k
    · simp [mapGet, hk] at h
    · simp only [mapGet, hk, if_false] at h
      simp [mapErase, hk, ih h]

theorem mapGet_erase_ne {α : Type} (m : GoMap α) (k k' : String) (h : k ≠ k') :
    mapGet (mapErase m k) k' = mapGet m k' := by
  induction m with
  | nil => rfl
  | cons e rest ih =>
    obtain ⟨k0, v⟩ := e
    by_cases hk : k0 = k
    · subst hk
      simp [mapErase, mapGet, h, ih]
    · by_cases hk' : k0 = k'
      · subst hk'
        have hk2 : ¬ k0 = k := hk
        simp [mapErase, mapGet, hk2]
      · simp [mapErase, mapGet, hk, hk', ih]

theorem mapGet_put {α : Type} (m : GoMap α) (k k' : String) (v : α) :
    mapGet (mapPut m k v) k' = if k = k' then some v else mapGet m k' := by
  by_cases h : k = k'
  · simp [mapPut, mapGet, h]
  · simp [mapPut, mapGet, h, mapGet_erase_ne m k k' h]

theorem mapGet_eq_none_iff {α : Type} (m : GoMap α) (k : String) :
    mapGet m k = none ↔ k ∉ mapKeys m := by
  induction m with
  | nil => simp [mapGet, mapKeys]
  | cons e rest ih =>
    obtain ⟨k0, v⟩ := e
    by_cases hk : k0 = k
    · simp [mapGet, mapKeys, hk]
    · have hk' : ¬ k = k0 := fun h => hk h.symm
      simpa [mapGet, mapKeys, hk, hk'] using ih

theorem mapBool_put (m : GoMap Bool) (k k' : String) :
    mapBool (mapPut m k true) k' = (decide (k = k') || mapBool m k') := by
  unfold mapBool
  rw [mapGet_put]
  by_cases h : k = k' <;> simp [h]

theorem mapBool_foldl_put (users : List String) (acc : GoMap Bool) (k : String) :
    mapBool (users.foldl (fun m user => mapPut m user true) acc) k
      = (decide (k ∈ users) || mapBool acc k) := by
  induction users generalizing acc with
  | nil => simp
  | cons u rest ih =>
    simp only [List.foldl_cons, ih, mapBool_put, List.mem_cons]
    by_cases h1 : k ∈ rest <;> by_cases h2 : u = k
    · simp [h1]
    · simp [h1]
    · simp [h2]
    · have h3 : ¬ k = u := fun e => h2 e.symm
      simp [h1, h2, h3]

/-! ## Facts about counter cells -/

theorem wrapInt64_wrap_add (x y : Int) :
    wrapInt64 (wrapInt64 x + y) = wrapInt64 (x + y) := by
  unfold wrapInt64; omega

theorem wrapInt64_of_range (x : Int) (h1 : -2 ^ 63 ≤ x) (h2 : x < 2 ^ 63) :
    wrapInt64 x = x := by
  unfold wrapInt64; omega

theorem wrapInt64_idem (x : Int) : wrapInt64 (wrapInt64 x) = wrapInt64 x := by
  unfold wrapInt64; omega

theorem atomicLoad_append_zero (h : Heap) (c : Nat) :
    atomicLoad (h ++ [0]) c = atomicLoad h c := by
  unfold atomicLoad
  rcases Nat.lt_trichotomy c h.length with hc | hc | hc
  · simp [List.getD_eq_getElem?_getD, List.getElem?_append_left hc]
  · subst hc
    simp [List.getD_eq_getElem?_getD]
  · have h1 : h.length ≤ c := Nat.le_of_lt hc
    simp [List.getD_eq_getElem?_getD, List.getElem?_append_right h1,
      List.getElem?_eq_none h1]

theorem atomicAdd_length (h : Heap) (c : Nat) (d : Int) :
    (atomicAdd h c d).length = h.length := by
  simp [atomicAdd]

theorem atomicLoad_add_self (h : Heap) (c : Nat) (d : Int) (hc : c < h.length) :
    atomicLoad (atomicAdd h c d) c = wrapInt64 (atomicLoad h c + d) := by
  simp [atomicLoad, atomicAdd, List.getD_eq_getElem?_getD, List.getElem?_set, hc]

theorem atomicLoad_add_ne (h : Heap) (c p : Nat) (d : Int) (hp : p ≠ c) :
    atomicLoad (atomicAdd h c d) p = atomicLoad h p := by
  have : c ≠ p := fun e => hp e.symm
  simp [atomicLoad, atomicAdd, List.getD_eq_getElem?_getD, List.getElem?_set, this]

theorem addAll_length (h : Heap) (cs : List Nat) (n : Nat) :
    (addAll h cs n).length = h.length := by
  induction cs generalizing h with
  | nil => rfl
  | cons c rest ih => simp [addAll, List.foldl_cons] at ih ⊢; rw [ih, atomicAdd_length]

theorem atomicLoad_addAll_not_mem (h : Heap) (cs : List Nat) (n : Nat) (p : Nat)
    (hp : p ∉ cs) : atomicLoad (addAll h cs n) p = atomicLoad h p := by
  induction cs generalizing h with
  | nil => rfl
  | cons c rest ih =>
    simp only [List.mem_cons, not_or] at hp
    have := ih (atomicAdd h c n) hp.2
    simp only [addAll, List.foldl_cons] at this ⊢
    rw [this, atomicLoad_add_ne h c p n hp.1]

theorem atomicAdd_range (h : Heap) (c : Nat) (d : Int)
    (hr : ∀ p, -2 ^ 63 ≤ atomicLoad h p ∧ atomicLoad h p < 2 ^ 63) (p : Nat) :
    -2 ^ 63 ≤ atomicLoad (atomicAdd h c d) p ∧ atomicLoad (atomicAdd h c d) p < 2 ^ 63 := by
  by_cases hp : p = c
  · subst hp
    by_cases hlt : p < h.length
    · rw [atomicLoad_add_self h p d hlt]
      unfold wrapInt64
      omega
    · have : atomicAdd h p d = h := by
        unfold atomicAdd
        exact List.set_eq_of_length_le (Nat.le_of_not_lt hlt)
      rw [this]; exact hr p
  · rw [atomicLoad_add_ne h c p d hp]; exact hr p

theorem addAll_range (h : Heap) (cs : List Nat) (n : Nat)
    (hr : ∀ p, -2 ^ 63 ≤ atomicLoad h p ∧ atomicLoad h p < 2 ^ 63) (p : Nat) :
    -2 ^ 63 ≤ atomicLoad (addAll h cs n) p ∧ atomicLoad (addAll h cs n) p < 2 ^ 63 := by
  induction cs generalizing h with
  | nil => exact hr p
  | cons c rest ih =>
    have := ih (atomicAdd h c n) (atomicAdd_range h c n hr)
    simpa only [addAll, List.foldl_cons] using this

theorem atomicLoad_addAll_mem (h : Heap) (cs : List Nat) (n : Nat) (p : Nat)
    (hnd : cs.Nodup) (hp : p ∈ cs) (hlt : p < h.length) :
    atomicLoad (addAll h cs n) p = wrapInt64 (atomicLoad h p + n) := by
  induction cs generalizing h with
  | nil => simp at hp
  | cons c rest ih =>
    rw [List.nodup_cons] at hnd
    rcases List.mem_cons.1 hp with rfl | hmem
    · have := atomicLoad_addAll_not_mem (atomicAdd h p n) rest n p hnd.1
      simp only [addAll, List.foldl_cons] at this ⊢
      rw [this, atomicLoad_add_self h p n hlt]
    · have hne : p ≠ c := fun e => hnd.1 (e ▸ hmem)
      have := ih (atomicAdd h c n) hnd.2 hmem (by rw [atomicAdd_length]; exact hlt)
      simp only [addAll, List.foldl_cons] at this ⊢
      rw [this, atomicLoad_add_ne h c p n hne]

/-! ## `userCounter` and the routing calls -/

theorem mapGet_none_of_keys_eq {α β : Type} (m : GoMap α) (m' : GoMap β) (k : String)
    (hk : mapKeys m = mapKeys m') : mapGet m k = none ↔ mapGet m' k = none := by
  rw [mapGet_eq_none_iff, mapGet_eq_none_iff, hk]

theorem mapKeys_put_of_none {α : Type} (m : GoMap α) (k : String) (v : α)
    (h : mapGet m k = none) : mapKeys (mapPut m k v) = k :: mapKeys m := by
  simp [mapPut, mapErase_of_get_none m k h, mapKeys]

theorem userCounter_of_some (s : TrafficManager) (h : Heap) (user : String)
    (up down : Nat) (hu : mapGet s.userUplink user = some up)
    (hd : mapGet s.userDownlink user = some down) :
    userCounter s h user = ((up, down), s, h) := by
  simp [userCounter, hu, hd]

theorem userCounter_of_none (s : TrafficManager) (h : Heap) (user : String)
    (hu : mapGet s.userUplink user = none) (hd : mapGet s.userDownlink user = none) :
    userCounter s h user =
      ((h.length, h.length + 1),
       { s with userUplink := mapPut s.userUplink user h.length
                userDownlink := mapPut s.userDownlink user (h.length + 1) },
       (h ++ [0]) ++ [0]) := by
  simp [userCounter, hu, hd, atomicNewInt64]

/-- The two cases of `userCounter` in a state that satisfies the invariant. -/
theorem userCounter_cases (s : TrafficManager) (h : Heap) (user : String) (hi : Inv s h) :
    (∃ up down, mapGet s.userUplink user = some up ∧ mapGet s.userDownlink user = some down ∧
        userCounter s h user = ((up, down), s, h)) ∨
    (mapGet s.userUplink user = none ∧ mapGet s.userDownlink user = none ∧
      userCounter s h user =
        ((h.length, h.length + 1),
         { s with userUplink := mapPut s.userUplink user h.length
                  userDownlink := mapPut s.userDownlink user (h.length + 1) },
         (h ++ [0]) ++ [0])) := by
  cases hu : mapGet s.userUplink user with
  | none =>
    have hd : mapGet s.userDownlink user = none :=
      (mapGet_none_of_keys_eq _ _ user hi.keys).1 hu
    exact Or.inr ⟨rfl, hd, userCounter_of_none s h user hu hd⟩
  | some up =>
    cases hd : mapGet s.userDownlink user with
    | none =>
      have := (mapGet_none_of_keys_eq _ _ user hi.keys).2 hd
      rw [hu] at this
      exact absurd this (by simp)
    | some down =>
      exact Or.inl ⟨up, down, rfl, rfl, userCounter_of_some s h user up down hu hd⟩

theorem Inv.userCounter (s : TrafficManager) (h : Heap) (user : String) (hi : Inv s h) :
    Inv (userCounter s h user).2.1 (userCounter s h user).2.2 := by
  rcases userCounter_cases s h user hi with ⟨up, down, _, _, he⟩ | ⟨hu, hd, he⟩
  · rw [he]; exact hi
  · rw [he]
    have h1 := hi.globalUp
    have h2 := hi.globalDown
    refine ⟨?_, ?_, ?_, ?_, ?_, ?_, ?_, ?_, ?_⟩
    · simp only [mapKeys_put_of_none _ _ _ hu, mapKeys_put_of_none _ _ _ hd, hi.keys]
    · simp only [mapKeys_put_of_none _ _ _ hu]
      exact List.nodup_cons.2 ⟨(mapGet_eq_none_iff _ _).1 hu, hi.keysNodup⟩
    · simp only [List.length_append, List.length_singleton]; omega
    · simp only [List.length_append, List.length_singleton]; omega
    · exact hi.globalNe
    · intro k c hk
      simp only [mapGet_put] at hk
      simp only [List.length_append, List.length_singleton]
      by_cases e : user = k
      · rw [if_pos e] at hk
        have := Option.some.inj hk
        omega
      · rw [if_neg e] at hk
        have := hi.upOwned k c hk
        omega
    · intro k c hk
      simp only [mapGet_put] at hk
      simp only [List.length_append, List.length_singleton]
      by_cases e : user = k
      · rw [if_pos e] at hk
        have := Option.some.inj hk
        omega
      · rw [if_neg e] at hk
        have := hi.downOwned k c hk
        omega
    · intro k k' c c' hk hk'
      simp only [mapGet_put] at hk hk'
      by_cases e : user = k <;> by_cases e' : user = k'
      · rw [if_pos e] at hk
        rw [if_pos e'] at hk'
        have := Option.some.inj hk
        have := Option.some.inj hk'
        omega
      · rw [if_pos e] at hk
        rw [if_neg e'] at hk'
        have := Option.some.inj hk
        have := hi.downOwned k' c' hk'
        omega
      · rw [if_neg e] at hk
        rw [if_pos e'] at hk'
        have := Option.some.inj hk'
        have := hi.upOwned k c hk
        omega
      · rw [if_neg e] at hk
        rw [if_neg e'] at hk'
        exact hi.upDown k k' c c' hk hk'
    · intro p
      rw [atomicLoad_append_zero, atomicLoad_append_zero]
      exact hi.range p

theorem routeCounters_state (s : TrafficManager) (h : Heap) (metadata : InboundContext) :
    (routeCounters s h metadata).2 =
      if mapBool s.nodeUsers metadata.User then (userCounter s h metadata.User).2 else (s, h) := by
  unfold routeCounters
  by_cases hu : mapBool s.nodeUsers metadata.User = true <;>
    by_cases ht : mapBool s.nodeTags metadata.Inbound = true <;> simp [hu, ht]

theorem routeCounters_lists (s : TrafficManager) (h : Heap) (metadata : InboundContext) :
    (routeCounters s h metadata).1 =
      ((if mapBool s.nodeTags metadata.Inbound then [s.globalUplink] else []) ++
         (if mapBool s.nodeUsers metadata.User then [(userCounter s h metadata.User).1.1] else []),
       (if mapBool s.nodeTags metadata.Inbound then [s.globalDownlink] else []) ++
         (if mapBool s.nodeUsers metadata.User then [(userCounter s h metadata.User).1.2] else [])) := by
  unfold routeCounters
  by_cases hu : mapBool s.nodeUsers metadata.User = true <;>
    by_cases ht : mapBool s.nodeTags metadata.Inbound = true <;> simp [hu, ht]

theorem RoutedConnection_eq (s : TrafficManager) (h : Heap) (metadata : InboundContext)
    (conn : Nat) :
    RoutedConnection s h metadata conn =
      if (routeCounters s h metadata).1.1.length > 0 then
        (Routed.tracker conn (routeCounters s h metadata).1.1 (routeCounters s h metadata).1.2,
          (routeCounters s h metadata).2.1, (routeCounters s h metadata).2.2)
      else
        (Routed.original conn, (routeCounters s h metadata).2.1,
          (routeCounters s h metadata).2.2) := by
  unfold RoutedConnection routeCounters
  by_cases hu : mapBool s.nodeUsers metadata.User = true <;>
    by_cases ht : mapBool s.nodeTags metadata.Inbound = true <;> simp [hu, ht]

theorem RoutedPacketConnection_eq (s : TrafficManager) (h : Heap)
    (metadata : InboundContext) (conn : Nat) :
    RoutedPacketConnection s h metadata conn =
      if (routeCounters s h metadata).1.1.length > 0 then
        (Routed.packetTracker conn (routeCounters s h metadata).1.1
          (routeCounters s h metadata).1.2,
          (routeCounters s h metadata).2.1, (routeCounters s h metadata).2.2)
      else
        (Routed.original conn, (routeCounters s h metadata).2.1,
          (routeCounters s h metadata).2.2) := by
  unfold RoutedPacketConnection routeCounters
  by_cases hu : mapBool s.nodeUsers metadata.User = true <;>
    by_cases ht : mapBool s.nodeTags metadata.Inbound = true <;> simp [hu, ht]

theorem RoutedConnection_state (s : TrafficManager) (h : Heap) (metadata : InboundContext)
    (conn : Nat) : (RoutedConnection s h metadata conn).2 = (routeCounters s h metadata).2 := by
  rw [RoutedConnection_eq]
  by_cases hl : (routeCounters s h metadata).1.1.length > 0 <;> simp [hl]

theorem RoutedPacketConnection_state (s : TrafficManager) (h : Heap)
    (metadata : InboundContext) (conn : Nat) :
    (RoutedPacketConnection s h metadata conn).2 = (routeCounters s h metadata).2 := by
  rw [RoutedPacketConnection_eq]
  by_cases hl : (routeCounters s h metadata).1.1.length > 0 <;> simp [hl]

theorem routeCounters_length (s : TrafficManager) (h : Heap) (metadata : InboundContext) :
    (routeCounters s h metadata).1.1.length = (routeCounters s h metadata).1.2.length := by
  rw [routeCounters_lists]
  by_cases hu : mapBool s.nodeUsers metadata.User = true <;>
    by_cases ht : mapBool s.nodeTags metadata.Inbound = true <;> simp [hu, ht]

theorem RoutedConnection_readCounter (s : TrafficManager) (h : Heap)
    (metadata : InboundContext) (conn : Nat) :
    (RoutedConnection s h metadata conn).1.readCounter = (routeCounters s h metadata).1.1 := by
  rw [RoutedConnection_eq]
  by_cases hl : (routeCounters s h metadata).1.1.length > 0
  · simp [hl, Routed.readCounter]
  · have : (routeCounters s h metadata).1.1 = [] :=
      List.eq_nil_of_length_eq_zero (by omega)
    simp [this, Routed.readCounter]

theorem RoutedConnection_writeCounter (s : TrafficManager) (h : Heap)
    (metadata : InboundContext) (conn : Nat) :
    (RoutedConnection s h metadata conn).1.writeCounter = (routeCounters s h metadata).1.2 := by
  have hlen := routeCounters_length s h metadata
  rw [RoutedConnection_eq]
  by_cases hl : (routeCounters s h metadata).1.1.length > 0
  · simp [hl, Routed.writeCounter]
  · have h1 : (routeCounters s h metadata).1.1 = [] :=
      List.eq_nil_of_length_eq_zero (by omega)
    have h2 : (routeCounters s h metadata).1.2 = [] :=
      List.eq_nil_of_length_eq_zero (by omega)
    simp [h1, h2, Routed.writeCounter]

theorem RoutedPacketConnection_readCounter (s : TrafficManager) (h : Heap)
    (metadata : InboundContext) (conn : Nat) :
    (RoutedPacketConnection s h metadata conn).1.readCounter
      = (routeCounters s h metadata).1.1 := by
  rw [RoutedPacketConnection_eq]
  by_cases hl : (routeCounters s h metadata).1.1.length > 0
  · simp [hl, Routed.readCounter]
  · have : (routeCounters s h metadata).1.1 = [] :=
      List.eq_nil_of_length_eq_zero (by omega)
    simp [this, Routed.readCounter]

theorem RoutedPacketConnection_writeCounter (s : TrafficManager) (h : Heap)
    (metadata : InboundContext) (conn : Nat) :
    (RoutedPacketConnection s h metadata conn).1.writeCounter
      = (routeCounters s h metadata).1.2 := by
  have hlen := routeCounters_length s h metadata
  rw [RoutedPacketConnection_eq]
  by_cases hl : (routeCounters s h metadata).1.1.length > 0
  · simp [hl, Routed.writeCounter]
  · have h1 : (routeCounters s h metadata).1.1 = [] :=
      List.eq_nil_of_length_eq_zero (by omega)
    have h2 : (routeCounters s h metadata).1.2 = [] :=
      List.eq_nil_of_length_eq_zero (by omega)
    simp [h1, h2, Routed.writeCounter]

/-! ## Steps of the transition system -/

theorem Inv.routeCounters (s : TrafficManager) (h : Heap) (metadata : InboundContext)
    (hi : Inv s h) :
    Inv (routeCounters s h metadata).2.1 (routeCounters s h metadata).2.2 := by
  rw [routeCounters_state]
  by_cases hu : mapBool s.nodeUsers metadata.User = true
  · simp only [hu, if_true]; exact hi.userCounter s h metadata.User
  · simp only [hu]; exact hi

theorem Inv.addAll (s : TrafficManager) (h : Heap) (cs : List Nat) (n : Nat)
    (hi : Inv s h) : Inv s (addAll h cs n) := by
  refine ⟨hi.keys, hi.keysNodup, ?_, ?_, hi.globalNe, ?_, ?_, hi.upDown, ?_⟩
  · rw [addAll_length]; exact hi.globalUp
  · rw [addAll_length]; exact hi.globalDown
  · intro k c hk; rw [addAll_length]; exact hi.upOwned k c hk
  · intro k c hk; rw [addAll_length]; exact hi.downOwned k c hk
  · exact addAll_range h cs n hi.range

theorem Inv.updateUsers (s : TrafficManager) (h : Heap) (users : List String)
    (hi : Inv s h) : Inv (UpdateUsers s users) h :=
  ⟨hi.keys, hi.keysNodup, hi.globalUp, hi.globalDown, hi.globalNe, hi.upOwned,
    hi.downOwned, hi.upDown, hi.range⟩

theorem step_inv (st : System) (e : Event) (hi : Inv st.manager st.heap) :
    Inv (step st e).manager (step st e).heap := by
  cases e with
  | updateUsers users => exact hi.updateUsers _ _ users
  | routedConnection metadata conn =>
    have := hi.routeCounters _ _ metadata
    rw [← RoutedConnection_state _ _ _ conn] at this
    exact this
  | routedPacketConnection metadata conn =>
    have := hi.routeCounters _ _ metadata
    rw [← RoutedPacketConnection_state _ _ _ conn] at this
    exact this
  | read i n =>
    simp only [step]
    cases st.conns[i]? with
    | none => exact hi
    | some r => exact hi.addAll _ _ _ n
  | write i n =>
    simp only [step]
    cases st.conns[i]? with
    | none => exact hi
    | some r => exact hi.addAll _ _ _ n
  | readUser _ => exact hi
  | readUsers _ => exact hi
  | readGlobal => exact hi

theorem run_inv (st : System) (evs : List Event) (hi : Inv st.manager st.heap) :
    Inv (run st evs).manager (run st evs).heap := by
  induction evs generalizing st with
  | nil => exact hi
  | cons e rest ih => exact ih (step st e) (step_inv st e hi)

theorem boot_inv (nodes : List Node) : Inv (boot nodes).manager (boot nodes).heap := by
  refine ⟨rfl, List.nodup_nil, ?_, ?_, ?_, ?_, ?_, ?_, ?_⟩
  · simp [boot, NewTrafficManager, atomicNewInt64]
  · simp [boot, NewTrafficManager, atomicNewInt64]
  · simp [boot, NewTrafficManager, atomicNewInt64]
  · simp [boot, NewTrafficManager, atomicNewInt64, mapGet]
  · simp [boot, NewTrafficManager, atomicNewInt64, mapGet]
  · simp [boot, NewTrafficManager, atomicNewInt64, mapGet]
  · intro p
    have : (boot nodes).heap = ([] ++ [0]) ++ [0] := rfl
    rw [this, atomicLoad_append_zero, atomicLoad_append_zero]
    simp [atomicLoad]

/-- Every reachable state satisfies the invariant. -/
theorem reachable_inv (nodes : List Node) (evs : List Event) :
    Inv (run (boot nodes) evs).manager (run (boot nodes) evs).heap :=
  run_inv _ evs (boot_inv nodes)

/-! ## What a step leaves alone -/

theorem userCounter_fields (s : TrafficManager) (h : Heap) (user : String) :
    (userCounter s h user).2.1.globalUplink = s.globalUplink ∧
    (userCounter s h user).2.1.globalDownlink = s.globalDownlink ∧
    (userCounter s h user).2.1.nodeTags = s.nodeTags ∧
    (userCounter s h user).2.1.nodeUsers = s.nodeUsers := by
  cases hu : mapGet s.userUplink user <;> cases hd : mapGet s.userDownlink user <;>
    simp [userCounter, hu, hd]

theorem userCounter_get (s : TrafficManager) (h : Heap) (user : String) :
    mapGet (userCounter s h user).2.1.userUplink user = some (userCounter s h user).1.1 ∧
    mapGet (userCounter s h user).2.1.userDownlink user = some (userCounter s h user).1.2 := by
  cases hu : mapGet s.userUplink user <;> cases hd : mapGet s.userDownlink user <;>
    simp [userCounter, mapGet_put, hu, hd]

theorem userCounter_get_ne (s : TrafficManager) (h : Heap) (user k : String) (hk : user ≠ k) :
    mapGet (userCounter s h user).2.1.userUplink k = mapGet s.userUplink k ∧
    mapGet (userCounter s h user).2.1.userDownlink k = mapGet s.userDownlink k := by
  cases hu : mapGet s.userUplink user <;> cases hd : mapGet s.userDownlink user <;>
    simp [userCounter, mapGet_put, hu, hd, hk]

theorem userCounter_mono (s : TrafficManager) (h : Heap) (user k : String) :
    (∀ c, mapGet s.userUplink k = some c →
      mapGet (userCounter s h user).2.1.userUplink k = some c) ∧
    (∀ c, mapGet s.userDownlink k = some c →
      mapGet (userCounter s h user).2.1.userDownlink k = some c) := by
  by_cases hk : user = k
  · subst hk
    cases hu : mapGet s.userUplink user <;> cases hd : mapGet s.userDownlink user <;>
      simp [userCounter, mapGet_put, hu, hd]
  · have := userCounter_get_ne s h user k hk
    rw [this.1, this.2]
    exact ⟨fun _ h => h, fun _ h => h⟩

theorem userCounter_load (s : TrafficManager) (h : Heap) (user : String) (p : Nat) :
    atomicLoad (userCounter s h user).2.2 p = atomicLoad h p := by
  have h2 : atomicLoad (h ++ [0, 0]) p = atomicLoad h p := by
    have : h ++ [0, 0] = (h ++ [0]) ++ [0] := by simp
    rw [this, atomicLoad_append_zero, atomicLoad_append_zero]
  cases hu : mapGet s.userUplink user <;> cases hd : mapGet s.userDownlink user <;>
    simp [userCounter, hu, hd, atomicNewInt64, atomicLoad_append_zero, h2]

theorem routeCounters_fields (s : TrafficManager) (h : Heap) (metadata : InboundContext) :
    (routeCounters s h metadata).2.1.globalUplink = s.globalUplink ∧
    (routeCounters s h metadata).2.1.globalDownlink = s.globalDownlink ∧
    (routeCounters s h metadata).2.1.nodeTags = s.nodeTags ∧
    (routeCounters s h metadata).2.1.nodeUsers = s.nodeUsers := by
  rw [routeCounters_state]
  by_cases hu : mapBool s.nodeUsers metadata.User = true
  · simp only [hu, if_true]; exact userCounter_fields s h metadata.User
  · simp [hu]

theorem routeCounters_mono (s : TrafficManager) (h : Heap) (metadata : InboundContext)
    (k : String) :
    (∀ c, mapGet s.userUplink k = some c →
      mapGet (routeCounters s h metadata).2.1.userUplink k = some c) ∧
    (∀ c, mapGet s.userDownlink k = some c →
      mapGet (routeCounters s h metadata).2.1.userDownlink k = some c) := by
  rw [routeCounters_state]
  by_cases hu : mapBool s.nodeUsers metadata.User = true
  · simp only [hu, if_true]; exact userCounter_mono s h metadata.User k
  · simp [hu]

theorem routeCounters_get_ne (s : TrafficManager) (h : Heap) (metadata : InboundContext)
    (k : String) (hk : metadata.User ≠ k) :
    mapGet (routeCounters s h metadata).2.1.userUplink k = mapGet s.userUplink k ∧
    mapGet (routeCounters s h metadata).2.1.userDownlink k = mapGet s.userDownlink k := by
  rw [routeCounters_state]
  by_cases hu : mapBool s.nodeUsers metadata.User = true
  · simp only [hu, if_true]; exact userCounter_get_ne s h metadata.User k hk
  · simp [hu]

theorem routeCounters_load (s : TrafficManager) (h : Heap) (metadata : InboundContext)
    (p : Nat) : atomicLoad (routeCounters s h metadata).2.2 p = atomicLoad h p := by
  rw [routeCounters_state]
  by_cases hu : mapBool s.nodeUsers metadata.User = true
  · simp only [hu, if_true]; exact userCounter_load s h metadata.User p
  · simp [hu]

theorem step_routedConnection (st : System) (metadata : InboundContext) (conn : Nat) :
    step st (.routedConnection metadata conn) =
      { manager := (routeCounters st.manager st.heap metadata).2.1
        heap := (routeCounters st.manager st.heap metadata).2.2
        conns := st.conns ++ [(RoutedConnection st.manager st.heap metadata conn).1] } := by
  simp only [step, RoutedConnection_state]

theorem step_routedPacketConnection (st : System) (metadata : InboundContext) (conn : Nat) :
    step st (.routedPacketConnection metadata conn) =
      { manager := (routeCounters st.manager st.heap metadata).2.1
        heap := (routeCounters st.manager st.heap metadata).2.2
        conns := st.conns ++ [(RoutedPacketConnection st.manager st.heap metadata conn).1] } := by
  simp only [step, RoutedPacketConnection_state]

theorem step_fields (st : System) (e : Event) :
    (step st e).manager.globalUplink = st.manager.globalUplink ∧
    (step st e).manager.globalDownlink = st.manager.globalDownlink ∧
    (step st e).manager.nodeTags = st.manager.nodeTags := by
  cases e with
  | updateUsers users => simp [step, UpdateUsers]
  | routedConnection metadata conn =>
    rw [step_routedConnection]
    have := routeCounters_fields st.manager st.heap metadata
    exact ⟨this.1, this.2.1, this.2.2.1⟩
  | routedPacketConnection metadata conn =>
    rw [step_routedPacketConnection]
    have := routeCounters_fields st.manager st.heap metadata
    exact ⟨this.1, this.2.1, this.2.2.1⟩
  | read i n => simp only [step]; cases st.conns[i]? <;> simp
  | write i n => simp only [step]; cases st.conns[i]? <;> simp
  | readUser _ => simp [step]
  | readUsers _ => simp [step]
  | readGlobal => simp [step]

theorem step_mono (st : System) (e : Event) (k : String) :
    (∀ c, mapGet st.manager.userUplink k = some c →
      mapGet (step st e).manager.userUplink k = some c) ∧
    (∀ c, mapGet st.manager.userDownlink k = some c →
      mapGet (step st e).manager.userDownlink k = some c) := by
  cases e with
  | updateUsers users => simp [step, UpdateUsers]
  | routedConnection metadata conn =>
    rw [step_routedConnection]; exact routeCounters_mono st.manager st.heap metadata k
  | routedPacketConnection metadata conn =>
    rw [step_routedPacketConnection]; exact routeCounters_mono st.manager st.heap metadata k
  | read i n => simp only [step]; cases st.conns[i]? <;> simp
  | write i n => simp only [step]; cases st.conns[i]? <;> simp
  | readUser _ => simp [step]
  | readUsers _ => simp [step]
  | readGlobal => simp [step]

theorem step_get_of_not_routes (st : System) (e : Event) (k : String)
    (hr : e.routes k = false) :
    mapGet (step st e).manager.userUplink k = mapGet st.manager.userUplink k ∧
    mapGet (step st e).manager.userDownlink k = mapGet st.manager.userDownlink k := by
  cases e with
  | updateUsers users => simp [step, UpdateUsers]
  | routedConnection metadata conn =>
    rw [step_routedConnection]
    exact routeCounters_get_ne st.manager st.heap metadata k (by simpa [Event.routes] using hr)
  | routedPacketConnection metadata conn =>
    rw [step_routedPacketConnection]
    exact routeCounters_get_ne st.manager st.heap metadata k (by simpa [Event.routes] using hr)
  | read i n => simp only [step]; cases st.conns[i]? <;> simp
  | write i n => simp only [step]; cases st.conns[i]? <;> simp
  | readUser _ => simp [step]
  | readUsers _ => simp [step]
  | readGlobal => simp [step]

theorem step_conns (st : System) (e : Event) (i : Nat) (r : Routed)
    (hc : st.conns[i]? = some r) : (step st e).conns[i]? = some r := by
  have hlt : i < st.conns.length := by
    rcases Nat.lt_or_ge i st.conns.length with h | h
    · exact h
    · rw [List.getElem?_eq_none h] at hc; cases hc
  cases e with
  | updateUsers users => simpa [step] using hc
  | routedConnection metadata conn =>
    rw [step_routedConnection]; simp only [List.getElem?_append_left hlt, hc]
  | routedPacketConnection metadata conn =>
    rw [step_routedPacketConnection]; simp only [List.getElem?_append_left hlt, hc]
  | read j n => simp only [step]; cases st.conns[j]? <;> simpa using hc
  | write j n => simp only [step]; cases st.conns[j]? <;> simpa using hc
  | readUser _ => simpa [step] using hc
  | readUsers _ => simpa [step] using hc
  | readGlobal => simpa [step] using hc

theorem run_cons (st : System) (e : Event) (evs : List Event) :
    run st (e :: evs) = run (step st e) evs := rfl

theorem run_append (st : System) (evs evs' : List Event) :
    run st (evs ++ evs') = run (run st evs) evs' := by
  simp [run, List.foldl_append]

theorem run_fields (st : System) (evs : List Event) :
    (run st evs).manager.globalUplink = st.manager.globalUplink ∧
    (run st evs).manager.globalDownlink = st.manager.globalDownlink ∧
    (run st evs).manager.nodeTags = st.manager.nodeTags := by
  induction evs generalizing st with
  | nil => exact ⟨rfl, rfl, rfl⟩
  | cons e rest ih =>
    rw [run_cons]
    have h1 := ih (step st e)
    have h2 := step_fields st e
    exact ⟨h1.1.trans h2.1, h1.2.1.trans h2.2.1, h1.2.2.trans h2.2.2⟩

theorem run_mono (st : System) (evs : List Event) (k : String) :
    (∀ c, mapGet st.manager.userUplink k = some c →
      mapGet (run st evs).manager.userUplink k = some c) ∧
    (∀ c, mapGet st.manager.userDownlink k = some c →
      mapGet (run st evs).manager.userDownlink k = some c) := by
  induction evs generalizing st with
  | nil => exact ⟨fun _ h => h, fun _ h => h⟩
  | cons e rest ih =>
    rw [run_cons]
    have h1 := ih (step st e)
    have h2 := step_mono st e k
    exact ⟨fun c h => h1.1 c (h2.1 c h), fun c h => h1.2 c (h2.2 c h)⟩

theorem run_conns (st : System) (evs : List Event) (i : Nat) (r : Routed)
    (hc : st.conns[i]? = some r) : (run st evs).conns[i]? = some r := by
  induction evs generalizing st with
  | nil => exact hc
  | cons e rest ih => rw [run_cons]; exact ih (step st e) (step_conns st e i r hc)

/-! ## The read accessors -/

theorem ReadUsers_foldl (s : TrafficManager) (h : Heap) (users : List String)
    (acc : List Int × List Int) :
    users.foldl
      (fun acc user =>
        let uplink :=
          match mapGet s.userUplink user with
          | some c => atomicLoad h c
          | none => 0
        let downlink :=
          match mapGet s.userDownlink user with
          | some c => atomicLoad h c
          | none => 0
        (acc.1 ++ [uplink], acc.2 ++ [downlink])) acc
      = (acc.1 ++ users.map (fun u => (ReadUser s h u).1),
         acc.2 ++ users.map (fun u => (ReadUser s h u).2)) := by
  induction users generalizing acc with
  | nil => simp
  | cons u rest ih =>
    rw [List.foldl_cons, ih]
    simp [ReadUser]

theorem ReadUsers_eq (s : TrafficManager) (h : Heap) (users : List String) :
    ReadUsers s h users =
      (users.map (fun u => (ReadUser s h u).1), users.map (fun u => (ReadUser s h u).2)) := by
  unfold ReadUsers
  rw [ReadUsers_foldl]
  simp

theorem fillUsage_aligned (clear : Bool) (fu fd : SSMUserObject → Int)
    (us : List SSMUserObject) (pu pd : List Int) (hlen : pu.length = pd.length) :
    fillUsage clear (pu ++ us.map fu) (pd ++ us.map fd) pu.length us =
      some (us.map (fun u =>
        { u with Password := if clear then "" else u.Password
                 DownlinkBytes := fd u
                 UplinkBytes := fu u })) := by
  induction us generalizing pu pd with
  | nil => rfl
  | cons u rest ih =>
    have h1 : (pu ++ (u :: rest).map fu)[pu.length]? = some (fu u) := by
      rw [List.getElem?_append_right (Nat.le_refl _)]; simp
    have h2 : (pd ++ (u :: rest).map fd)[pu.length]? = some (fd u) := by
      rw [hlen, List.getElem?_append_right (Nat.le_refl _)]; simp
    have h3 := ih (pu ++ [fu u]) (pd ++ [fd u]) (by simp [hlen])
    simp only [List.length_append, List.length_singleton, List.append_assoc,
      List.singleton_append] at h3
    simp only [List.map_cons] at h1 h2 ⊢
    simp only [fillUsage, h1, h2, h3]

/-! ## Routing selects the counters -/

/-- C1: for every manager state, metadata and connection, `RoutedConnection` and
`RoutedPacketConnection` attach the same two lists: the global counter if and
only if the inbound tag is metered, followed by the counter registered for
`metadata.User` after the call if and only if that user is metered. The upload
and download lists have the same length, 0, 1 or 2; with an empty list the
connection itself is returned, otherwise a wrapper holding the lists; and both
calls leave the same manager and heap. -/
theorem C1_routing_attaches_selected_counters (s : TrafficManager) (h : Heap)
    (metadata : InboundContext) (conn : Nat) :
    let r := RoutedConnection s h metadata conn
    let p := RoutedPacketConnection s h metadata conn
    let tag := mapBool s.nodeTags metadata.Inbound
    let usr := mapBool s.nodeUsers metadata.User
    let rc := (if tag then [s.globalUplink] else []) ++
      (if usr then (mapGet r.2.1.userUplink metadata.User).toList else [])
    let wc := (if tag then [s.globalDownlink] else []) ++
      (if usr then (mapGet r.2.1.userDownlink metadata.User).toList else [])
    r.1 = (if tag || usr then Routed.tracker conn rc wc else Routed.original conn) ∧
    p.1 = (if tag || usr then Routed.packetTracker conn rc wc else Routed.original conn) ∧
    r.1.readCounter = rc ∧ r.1.writeCounter = wc ∧
    p.1.readCounter = rc ∧ p.1.writeCounter = wc ∧
    rc.length = (if tag then 1 else 0) + (if usr then 1 else 0) ∧
    wc.length = rc.length ∧ rc.length ≤ 2 ∧
    p.2 = r.2 := by
  intro r p tag usr rc wc
  have hst : r.2 = (routeCounters s h metadata).2 := RoutedConnection_state s h metadata conn
  have hpt : p.2 = (routeCounters s h metadata).2 :=
    RoutedPacketConnection_state s h metadata conn
  have hlists := routeCounters_lists s h metadata
  have hstate := routeCounters_state s h metadata
  have hget := userCounter_get s h metadata.User
  have hrc : (routeCounters s h metadata).1.1 = rc := by
    show _ = (if tag then [s.globalUplink] else []) ++
      (if usr then (mapGet r.2.1.userUplink metadata.User).toList else [])
    rw [hlists, hst, hstate]
    by_cases hu : mapBool s.nodeUsers metadata.User = true
    · have hu' : usr = true := hu
      simp only [hu, hu', if_true, hget.1, Option.toList]
    · have hu' : ¬ usr = true := hu
      simp [hu, tag]
      intro hc; exact absurd hc hu'
  have hwc : (routeCounters s h metadata).1.2 = wc := by
    show _ = (if tag then [s.globalDownlink] else []) ++
      (if usr then (mapGet r.2.1.userDownlink metadata.User).toList else [])
    rw [hlists, hst, hstate]
    by_cases hu : mapBool s.nodeUsers metadata.User = true
    · have hu' : usr = true := hu
      simp only [hu, hu', if_true, hget.2, Option.toList]
    · have hu' : ¬ usr = true := hu
      simp [hu, tag]
      intro hc; exact absurd hc hu'
  have hlen : rc.length = (if tag then 1 else 0) + (if usr then 1 else 0) := by
    rw [← hrc, hlists]
    show ((if tag then [s.globalUplink] else []) ++
      (if usr then [(userCounter s h metadata.User).1.1] else [])).length = _
    cases tag <;> cases usr <;> simp
  have hlen' : wc.length = rc.length := by
    rw [← hrc, ← hwc]; exact (routeCounters_length s h metadata).symm
  have hr1 : r.1 =
      (if tag || usr then Routed.tracker conn rc wc else Routed.original conn) := by
    show (RoutedConnection s h metadata conn).1 = _
    rw [RoutedConnection_eq]
    simp only [hrc, hwc]
    revert hlen
    cases tag <;> cases usr <;> intro hlen <;> simp [hlen]
  have hp1 : p.1 =
      (if tag || usr then Routed.packetTracker conn rc wc else Routed.original conn) := by
    show (RoutedPacketConnection s h metadata conn).1 = _
    rw [RoutedPacketConnection_eq]
    simp only [hrc, hwc]
    revert hlen
    cases tag <;> cases usr <;> intro hlen <;> simp [hlen]
  refine ⟨hr1, hp1, ?_, ?_, ?_, ?_, hlen, hlen', ?_, ?_⟩
  · rw [← hrc]; exact RoutedConnection_readCounter s h metadata conn
  · rw [← hwc]; exact RoutedConnection_writeCounter s h metadata conn
  · rw [← hrc]; exact RoutedPacketConnection_readCounter s h metadata conn
  · rw [← hwc]; exact RoutedPacketConnection_writeCounter s h metadata conn
  · rw [hlen]; cases tag <;> cases usr <;> simp
  · rw [hpt, hst]

/-! ## Reading the counters -/

theorem ReadUser_of_none (s : TrafficManager) (h : Heap) (user : String)
    (hu : mapGet s.userUplink user = none) (hd : mapGet s.userDownlink user = none) :
    ReadUser s h user = (0, 0) := by
  simp [ReadUser, hu, hd]

theorem step_state_of_not_metered (st : System) (e : Event) (user : String)
    (hr : e.routes user = true) (hm : mapBool st.manager.nodeUsers user = false) :
    (step st e).manager = st.manager ∧ (step st e).heap = st.heap := by
  cases e with
  | routedConnection metadata conn =>
    have hu : metadata.User = user := by simpa [Event.routes] using hr
    rw [step_routedConnection, routeCounters_state, hu, hm]
    simp
  | routedPacketConnection metadata conn =>
    have hu : metadata.User = user := by simpa [Event.routes] using hr
    rw [step_routedPacketConnection, routeCounters_state, hu, hm]
    simp
  | updateUsers users => simp [Event.routes] at hr
  | read i n => simp [Event.routes] at hr
  | write i n => simp [Event.routes] at hr
  | readUser _ => simp [Event.routes] at hr
  | readUsers _ => simp [Event.routes] at hr
  | readGlobal => simp [Event.routes] at hr

theorem run_get_of_neverRoutedMetered (user : String) (st : System) (evs : List Event)
    (hn : neverRoutedMetered user st evs = true) :
    mapGet (run st evs).manager.userUplink user = mapGet st.manager.userUplink user ∧
    mapGet (run st evs).manager.userDownlink user = mapGet st.manager.userDownlink user := by
  induction evs generalizing st with
  | nil => exact ⟨rfl, rfl⟩
  | cons e rest ih =>
    simp only [neverRoutedMetered, Bool.and_eq_true, Bool.or_eq_true,
      Bool.not_eq_true'] at hn
    have h1 := ih (step st e) hn.2
    rw [run_cons]
    rcases hn.1 with hr | hm
    · have h2 := step_get_of_not_routes st e user hr
      exact ⟨h1.1.trans h2.1, h1.2.trans h2.2⟩
    · cases hr : e.routes user with
      | false =>
        have h2 := step_get_of_not_routes st e user hr
        exact ⟨h1.1.trans h2.1, h1.2.trans h2.2⟩
      | true =>
        have h2 := step_state_of_not_metered st e user hr hm
        rw [h2.1] at h1
        exact h1

/-- C4: in every manager state, `ReadUser` of a username without an entry in
the registry is `(0, 0)` (the function has no error result). So it is for
every username on a manager just built, for every username after an
`UpdateUsers` on a manager just built (metered or not, no connection was
routed), and in every reachable state for a username that was never routed
while metered. -/
theorem C4_unknown_user_reads_zero :
    (∀ (s : TrafficManager) (h : Heap) (user : String),
      mapGet s.userUplink user = none → mapGet s.userDownlink user = none →
      ReadUser s h user = (0, 0)) ∧
    (∀ (nodes : List Node) (h : Heap) (user : String),
      ReadUser (NewTrafficManager nodes h).1 (NewTrafficManager nodes h).2 user = (0, 0)) ∧
    (∀ (nodes : List Node) (h : Heap) (users : List String) (user : String),
      ReadUser (UpdateUsers (NewTrafficManager nodes h).1 users)
        (NewTrafficManager nodes h).2 user = (0, 0)) ∧
    (∀ (nodes : List Node) (evs : List Event) (user : String),
      neverRoutedMetered user (boot nodes) evs = true →
      mapGet (run (boot nodes) evs).manager.userUplink user = none ∧
      mapGet (run (boot nodes) evs).manager.userDownlink user = none ∧
      ReadUser (run (boot nodes) evs).manager (run (boot nodes) evs).heap user = (0, 0)) := by
  refine ⟨ReadUser_of_none, ?_, ?_, ?_⟩
  · intro nodes h user
    exact ReadUser_of_none _ _ _ rfl rfl
  · intro nodes h users user
    exact ReadUser_of_none _ _ _ rfl rfl
  · intro nodes evs user hn
    have := run_get_of_neverRoutedMetered user (boot nodes) evs hn
    have hu : mapGet (run (boot nodes) evs).manager.userUplink user = none := this.1
    have hd : mapGet (run (boot nodes) evs).manager.userDownlink user = none := this.2
    exact ⟨hu, hd, ReadUser_of_none _ _ _ hu hd⟩

/-- The witness of C4: `"bob"` has no entry next to `"alice"`, and was routed
only while not metered. -/
theorem C4_unknown_user_reads_zero_witness :
    ReadUser ⟨[], [("bob", true)], 0, 1, [("alice", 2)], [("alice", 3)]⟩ [5, 6, 7, 8] "bob"
      = (0, 0) ∧
    ReadUser
      (run (boot [⟨"in-ss", "shadowsocks"⟩])
        [.routedConnection ⟨"in-ss", "bob"⟩ 0, .read 0 30, .updateUsers ["bob"]]).manager
      (run (boot [⟨"in-ss", "shadowsocks"⟩])
        [.routedConnection ⟨"in-ss", "bob"⟩ 0, .read 0 30, .updateUsers ["bob"]]).heap
      "bob" = (0, 0) :=
  ⟨C4_unknown_user_reads_zero.1 _ _ "bob" (by decide) (by decide),
   (C4_unknown_user_reads_zero.2.2.2 [⟨"in-ss", "shadowsocks"⟩]
      [.routedConnection ⟨"in-ss", "bob"⟩ 0, .read 0 30, .updateUsers ["bob"]] "bob"
      (by decide)).2.2⟩

/-- C5: in every manager state and for every list of usernames, `ReadUsers`
returns two lists as long as the input whose `i`-th entries are the two
components of `ReadUser` of the `i`-th name; hence the loops of `getUsers` and
`getDataUsage` never index out of range and fill in exactly these values. -/
theorem C5_ReadUsers_is_pointwise_ReadUser (s : TrafficManager) (h : Heap)
    (users : List String) (objects : List SSMUserObject) :
    (ReadUsers s h users).1.length = users.length ∧
    (ReadUsers s h users).2.length = users.length ∧
    (ReadUsers s h users).1 = users.map (fun u => (ReadUser s h u).1) ∧
    (ReadUsers s h users).2 = users.map (fun u => (ReadUser s h u).2) ∧
    (ReadUsers s h users).1.zip (ReadUsers s h users).2 = users.map (ReadUser s h) ∧
    getUsers s h objects = some (objects.map (fun it =>
      { it with DownlinkBytes := (ReadUser s h it.UserName).2
                UplinkBytes := (ReadUser s h it.UserName).1 })) ∧
    getDataUsage s h objects = some ((ReadGlobal s h).2, (ReadGlobal s h).1,
      objects.map (fun it =>
        { it with Password := ""
                  DownlinkBytes := (ReadUser s h it.UserName).2
                  UplinkBytes := (ReadUser s h it.UserName).1 })) := by
  have hfill := fun clear => fillUsage_aligned clear
    (fun it => (ReadUser s h it.UserName).1) (fun it => (ReadUser s h it.UserName).2)
    objects [] [] rfl
  simp only [List.nil_append, List.length_nil] at hfill
  refine ⟨?_, ?_, ?_, ?_, ?_, ?_, ?_⟩
  · simp [ReadUsers_eq]
  · simp [ReadUsers_eq]
  · simp [ReadUsers_eq]
  · simp [ReadUsers_eq]
  · rw [ReadUsers_eq]
    simp [List.zip_map']
  · unfold getUsers
    rw [ReadUsers_eq]
    simp only [List.map_map]
    have := hfill false
    simpa [Function.comp] using this
  · unfold getDataUsage
    rw [ReadUsers_eq]
    simp only [List.map_map]
    have := hfill true
    simp only [Function.comp_def]
    rw [this]
    simp

/-- C6: in every manager state and for every list, after `UpdateUsers(users)`
a username is metered exactly when it occurs in `users`, whatever was metered
before; the call is total and changes no other field of the manager, in
particular not the metered node tags. -/
theorem C6_UpdateUsers_replaces_the_user_set (s : TrafficManager) (users : List String)
    (user : String) :
    mapBool (UpdateUsers s users).nodeUsers user = decide (user ∈ users) ∧
    (UpdateUsers s users).nodeTags = s.nodeTags ∧
    (UpdateUsers s users).globalUplink = s.globalUplink ∧
    (UpdateUsers s users).globalDownlink = s.globalDownlink ∧
    (UpdateUsers s users).userUplink = s.userUplink ∧
    (UpdateUsers s users).userDownlink = s.userDownlink := by
  refine ⟨?_, rfl, rfl, rfl, rfl, rfl⟩
  have := mapBool_foldl_put users [] user
  simpa [UpdateUsers, mapBool, mapGet] using this

/-- C7: in every manager state, calling `UpdateUsers(users)` a second time
gives the state the first call gave, so the metered test answers the same for
every username; and no call replaces or changes a counter: the registry and
the global counters are the same objects, and `ReadUser` and `ReadGlobal`
return what they returned before. -/
theorem C7_UpdateUsers_idempotent (s : TrafficManager) (h : Heap) (users : List String)
    (user : String) :
    UpdateUsers (UpdateUsers s users) users = UpdateUsers s users ∧
    mapBool (UpdateUsers (UpdateUsers s users) users).nodeUsers user
      = mapBool (UpdateUsers s users).nodeUsers user ∧
    (UpdateUsers s users).userUplink = s.userUplink ∧
    (UpdateUsers s users).userDownlink = s.userDownlink ∧
    (UpdateUsers s users).globalUplink = s.globalUplink ∧
    (UpdateUsers s users).globalDownlink = s.globalDownlink ∧
    ReadUser (UpdateUsers s users) h user = ReadUser s h user ∧
    ReadUser (UpdateUsers (UpdateUsers s users) users) h user = ReadUser s h user ∧
    ReadGlobal (UpdateUsers s users) h = ReadGlobal s h ∧
    ReadGlobal (UpdateUsers (UpdateUsers s users) users) h = ReadGlobal s h :=
  ⟨rfl, rfl, rfl, rfl, rfl, rfl, rfl, rfl, rfl, rfl⟩

/-! ## The registry only grows -/

theorem userCounter_keys (s : TrafficManager) (h : Heap) (user : String) (hi : Inv s h) :
    mapKeys (userCounter s h user).2.1.userUplink =
      (if mapGet s.userUplink user = none then user :: mapKeys s.userUplink
       else mapKeys s.userUplink) := by
  rcases userCounter_cases s h user hi with ⟨up, down, hu, _, he⟩ | ⟨hu, hd, he⟩
  · rw [he]; simp [hu]
  · rw [he]; simp [hu, mapKeys_put_of_none _ _ _ hu]

theorem step_load_of_managerOp (st : System) (e : Event) (hop : e.isManagerOp = true)
    (p : Nat) : atomicLoad (step st e).heap p = atomicLoad st.heap p := by
  cases e with
  | updateUsers users => rfl
  | routedConnection metadata conn =>
    rw [step_routedConnection]; exact routeCounters_load st.manager st.heap metadata p
  | routedPacketConnection metadata conn =>
    rw [step_routedPacketConnection]; exact routeCounters_load st.manager st.heap metadata p
  | read i n => simp [Event.isManagerOp] at hop
  | write i n => simp [Event.isManagerOp] at hop
  | readUser _ => rfl
  | readUsers _ => rfl
  | readGlobal => rfl

theorem step_registry (st : System) (e : Event) :
    ((step st e).manager.userUplink, (step st e).manager.userDownlink) =
      match e.routedUser with
      | some u =>
        if mapBool st.manager.nodeUsers u then
          ((userCounter st.manager st.heap u).2.1.userUplink,
           (userCounter st.manager st.heap u).2.1.userDownlink)
        else (st.manager.userUplink, st.manager.userDownlink)
      | none => (st.manager.userUplink, st.manager.userDownlink) := by
  cases e with
  | updateUsers users => rfl
  | routedConnection metadata conn =>
    rw [step_routedConnection]
    simp only [Event.routedUser, routeCounters_state]
    by_cases hu : mapBool st.manager.nodeUsers metadata.User = true <;> simp [hu]
  | routedPacketConnection metadata conn =>
    rw [step_routedPacketConnection]
    simp only [Event.routedUser, routeCounters_state]
    by_cases hu : mapBool st.manager.nodeUsers metadata.User = true <;> simp [hu]
  | read i n => simp only [step, Event.routedUser]; cases st.conns[i]? <;> rfl
  | write i n => simp only [step, Event.routedUser]; cases st.conns[i]? <;> rfl
  | readUser _ => rfl
  | readUsers _ => rfl
  | readGlobal => rfl

/-- C10: in every reachable state and for every operation of the manager
(`UpdateUsers`, a routing call, `ReadUser`, `ReadUsers`, `ReadGlobal`, and
`userCounter` itself), the two registry maps have the same keys before and
after; a username with a counter before has the same counter after, and no
cell changes its value; the registry after a routing call for a metered user
is the one `userCounter` leaves, which adds the requested username in front
when it was absent and nothing otherwise; every other operation leaves both
maps as they were. -/
theorem C10_registry_monotone (nodes : List Node) (evs : List Event) (e : Event)
    (user k : String) (hop : e.isManagerOp = true) :
    let st := run (boot nodes) evs
    let st' := step st e
    let uc := userCounter st.manager st.heap user
    mapKeys st.manager.userUplink = mapKeys st.manager.userDownlink ∧
    mapKeys st'.manager.userUplink = mapKeys st'.manager.userDownlink ∧
    mapKeys uc.2.1.userUplink = mapKeys uc.2.1.userDownlink ∧
    (∀ c, mapGet st.manager.userUplink k = some c →
      mapGet st'.manager.userUplink k = some c ∧ mapGet uc.2.1.userUplink k = some c) ∧
    (∀ c, mapGet st.manager.userDownlink k = some c →
      mapGet st'.manager.userDownlink k = some c ∧ mapGet uc.2.1.userDownlink k = some c) ∧
    (∀ p, atomicLoad st'.heap p = atomicLoad st.heap p ∧
      atomicLoad uc.2.2 p = atomicLoad st.heap p) ∧
    mapKeys uc.2.1.userUplink =
      (if mapGet st.manager.userUplink user = none then user :: mapKeys st.manager.userUplink
       else mapKeys st.manager.userUplink) ∧
    (st'.manager.userUplink, st'.manager.userDownlink) =
      (match e.routedUser with
       | some u =>
         if mapBool st.manager.nodeUsers u then
           ((userCounter st.manager st.heap u).2.1.userUplink,
            (userCounter st.manager st.heap u).2.1.userDownlink)
         else (st.manager.userUplink, st.manager.userDownlink)
       | none => (st.manager.userUplink, st.manager.userDownlink)) := by
  intro st st' uc
  have hi : Inv st.manager st.heap := reachable_inv nodes evs
  have hi' : Inv st'.manager st'.heap := step_inv st e hi
  have hiu : Inv uc.2.1 uc.2.2 := hi.userCounter _ _ user
  refine ⟨hi.keys, hi'.keys, hiu.keys, ?_, ?_, ?_, ?_, ?_⟩
  · intro c hc
    exact ⟨(step_mono st e k).1 c hc, (userCounter_mono st.manager st.heap user k).1 c hc⟩
  · intro c hc
    exact ⟨(step_mono st e k).2 c hc, (userCounter_mono st.manager st.heap user k).2 c hc⟩
  · intro p
    exact ⟨step_load_of_managerOp st e hop p, userCounter_load st.manager st.heap user p⟩
  · exact userCounter_keys st.manager st.heap user hi
  · exact step_registry st e

/-- The witness of C10: a second routing call for the metered `"alice"`. -/
theorem C10_registry_monotone_witness :
    mapGet (step (run (boot [⟨"in-ss", "shadowsocks"⟩])
        [.updateUsers ["alice"], .routedConnection ⟨"in-ss", "alice"⟩ 7, .read 0 50])
      (.routedPacketConnection ⟨"in-ss", "alice"⟩ 8)).manager.userUplink "alice" = some 2 :=
  ((C10_registry_monotone [⟨"in-ss", "shadowsocks"⟩]
      [.updateUsers ["alice"], .routedConnection ⟨"in-ss", "alice"⟩ 7, .read 0 50]
      (.routedPacketConnection ⟨"in-ss", "alice"⟩ 8) "alice" "alice" (by decide)).2.2.2.1
    2 (by decide)).1

/-! ## Traffic through routed connections -/

theorem step_read (st : System) (i n : Nat) (r : Routed) (hc : st.conns[i]? = some r) :
    step st (.read i n) = { st with heap := addAll st.heap r.readCounter n } := by
  simp [step, hc, connRead]

theorem step_write (st : System) (i n : Nat) (r : Routed) (hc : st.conns[i]? = some r) :
    step st (.write i n) = { st with heap := addAll st.heap r.writeCounter n } := by
  simp [step, hc, connWrite]

/-- A trace of transfers through connections that all feed the pair
`(up, down)` adds the bytes read to `up` and the bytes written to `down`, in
64-bit arithmetic, and changes nothing but the heap. -/
theorem run_transfers (lo hi up down : Nat) (ios : List Event) (st : System)
    (hio : ∀ e ∈ ios, e.transfers lo hi = true)
    (hconn : ∀ i, lo ≤ i → i < hi → ∃ r, st.conns[i]? = some r ∧ r.Feeds up down)
    (hup : up < st.heap.length) (hdown : down < st.heap.length)
    (hru : wrapInt64 (atomicLoad st.heap up) = atomicLoad st.heap up)
    (hrd : wrapInt64 (atomicLoad st.heap down) = atomicLoad st.heap down) :
    (run st ios).manager = st.manager ∧ (run st ios).conns = st.conns ∧
    atomicLoad (run st ios).heap up = wrapInt64 (atomicLoad st.heap up + readTotal ios) ∧
    atomicLoad (run st ios).heap down
      = wrapInt64 (atomicLoad st.heap down + writeTotal ios) := by
  induction ios generalizing st with
  | nil => simp [run, readTotal, writeTotal, hru, hrd]
  | cons e rest ih =>
    have he := hio e (List.mem_cons_self _ _)
    have hrest : ∀ e' ∈ rest, e'.transfers lo hi = true :=
      fun e' he' => hio e' (List.mem_cons_of_mem _ he')
    rw [run_cons]
    cases e with
    | read i n =>
      have hi' : lo ≤ i ∧ i < hi := by simpa [Event.transfers] using he
      obtain ⟨r, hr, hnd, _, hmem, _, _, hdn⟩ := hconn i hi'.1 hi'.2
      rw [step_read st i n r hr]
      have h1 : atomicLoad (addAll st.heap r.readCounter n) up
          = wrapInt64 (atomicLoad st.heap up + n) :=
        atomicLoad_addAll_mem _ _ n up hnd hmem hup
      have h2 : atomicLoad (addAll st.heap r.readCounter n) down = atomicLoad st.heap down :=
        atomicLoad_addAll_not_mem _ _ n down hdn
      have := ih { st with heap := addAll st.heap r.readCounter n } hrest hconn
        (by simp only [addAll_length]; exact hup) (by simp only [addAll_length]; exact hdown)
        (by simp only [h1, wrapInt64_idem]) (by simp only [h2, hrd])
      refine ⟨this.1, this.2.1, ?_, ?_⟩
      · rw [this.2.2.1]
        simp only [h1, readTotal, wrapInt64_wrap_add]
        congr 1; push_cast; ring
      · rw [this.2.2.2]
        simp only [h2, writeTotal]
    | write i n =>
      have hi' : lo ≤ i ∧ i < hi := by simpa [Event.transfers] using he
      obtain ⟨r, hr, _, hnd, _, hun, hmem, _⟩ := hconn i hi'.1 hi'.2
      rw [step_write st i n r hr]
      have h1 : atomicLoad (addAll st.heap r.writeCounter n) down
          = wrapInt64 (atomicLoad st.heap down + n) :=
        atomicLoad_addAll_mem _ _ n down hnd hmem hdown
      have h2 : atomicLoad (addAll st.heap r.writeCounter n) up = atomicLoad st.heap up :=
        atomicLoad_addAll_not_mem _ _ n up hun
      have := ih { st with heap := addAll st.heap r.writeCounter n } hrest hconn
        (by simp only [addAll_length]; exact hup) (by simp only [addAll_length]; exact hdown)
        (by simp only [h2, hru]) (by simp only [h1, wrapInt64_idem])
      refine ⟨this.1, this.2.1, ?_, ?_⟩
      · rw [this.2.2.1]
        simp only [h2, readTotal]
      · rw [this.2.2.2]
        simp only [h1, writeTotal, wrapInt64_wrap_add]
        congr 1; push_cast; ring
    | updateUsers _ => simp [Event.transfers] at he
    | routedConnection _ _ => simp [Event.transfers] at he
    | routedPacketConnection _ _ => simp [Event.transfers] at he
    | readUser _ => simp [Event.transfers] at he
    | readUsers _ => simp [Event.transfers] at he
    | readGlobal => simp [Event.transfers] at he

/-- The lists a routing call builds in a state satisfying the invariant. -/
theorem routeCounters_feeds (s : TrafficManager) (h : Heap) (metadata : InboundContext)
    (hi : Inv s h) :
    (routeCounters s h metadata).1.1.Nodup ∧ (routeCounters s h metadata).1.2.Nodup ∧
    (mapBool s.nodeTags metadata.Inbound = true →
      s.globalUplink ∈ (routeCounters s h metadata).1.1 ∧
      s.globalUplink ∉ (routeCounters s h metadata).1.2 ∧
      s.globalDownlink ∈ (routeCounters s h metadata).1.2 ∧
      s.globalDownlink ∉ (routeCounters s h metadata).1.1) ∧
    (mapBool s.nodeUsers metadata.User = true →
      ∃ pu pd, mapGet (routeCounters s h metadata).2.1.userUplink metadata.User = some pu ∧
        mapGet (routeCounters s h metadata).2.1.userDownlink metadata.User = some pd ∧
        pu ∈ (routeCounters s h metadata).1.1 ∧ pu ∉ (routeCounters s h metadata).1.2 ∧
        pd ∈ (routeCounters s h metadata).1.2 ∧ pd ∉ (routeCounters s h metadata).1.1) ∧
    (mapBool s.nodeUsers metadata.User = false →
      (∀ c ∈ (routeCounters s h metadata).1.1, c = s.globalUplink) ∧
      (∀ c ∈ (routeCounters s h metadata).1.2, c = s.globalDownlink)) := by
  have hi' := hi.userCounter s h metadata.User
  have hget := userCounter_get s h metadata.User
  have hf := userCounter_fields s h metadata.User
  have hup := hi'.upOwned _ _ hget.1
  have hdn := hi'.downOwned _ _ hget.2
  have hud := hi'.upDown _ _ _ _ hget.1 hget.2
  rw [hf.1, hf.2.1] at hup hdn
  have hg := hi.globalNe
  rw [routeCounters_lists, routeCounters_state]
  by_cases hu : mapBool s.nodeUsers metadata.User = true <;>
    by_cases ht : mapBool s.nodeTags metadata.Inbound = true
  · simp only [hu, ht, if_true]
    refine ⟨?_, ?_, ?_, ?_, ?_⟩
    · simp; exact fun e => hup.2.1 e.symm
    · simp; exact fun e => hdn.2.2 e.symm
    · intro _; simp; exact ⟨⟨hg, fun e => hdn.2.1 e.symm⟩, fun e => hg e.symm, fun e => hup.2.2 e.symm⟩
    · intro _
      refine ⟨_, _, hget.1, hget.2, ?_⟩
      simp
      exact ⟨⟨hup.2.2, hud⟩, hdn.2.1, fun e => hud e.symm⟩
    · intro hc; simp at hc
  · simp only [hu, ht, if_true]
    refine ⟨?_, ?_, ?_, ?_, ?_⟩
    · simp
    · simp
    · intro hc; exact absurd hc (by simp)
    · intro _
      refine ⟨_, _, hget.1, hget.2, ?_⟩
      simp
      exact ⟨hud, fun e => hud e.symm⟩
    · intro hc; simp at hc
  · simp only [hu, ht, if_true]
    refine ⟨?_, ?_, ?_, ?_, ?_⟩
    · simp
    · simp
    · intro _; simp; exact ⟨hg, fun e => hg e.symm⟩
    · intro hc; exact absurd hc (by simp)
    · intro _; simp
  · simp only [hu, ht]
    refine ⟨?_, ?_, ?_, ?_, ?_⟩
    · simp
    · simp
    · intro hc; exact absurd hc (by simp)
    · intro hc; exact absurd hc (by simp)
    · intro _; simp

/-- The step of a routing event. -/
theorem step_routes (st : System) (e : Event) (u : String) (hr : e.routes u = true) :
    ∃ metadata r, metadata.User = u ∧
      step st e = { manager := (routeCounters st.manager st.heap metadata).2.1
                    heap := (routeCounters st.manager st.heap metadata).2.2
                    conns := st.conns ++ [r] } ∧
      r.readCounter = (routeCounters st.manager st.heap metadata).1.1 ∧
      r.writeCounter = (routeCounters st.manager st.heap metadata).1.2 := by
  cases e with
  | routedConnection metadata conn =>
    exact ⟨metadata, _, by simpa [Event.routes] using hr, step_routedConnection st metadata conn,
      RoutedConnection_readCounter _ _ _ _, RoutedConnection_writeCounter _ _ _ _⟩
  | routedPacketConnection metadata conn =>
    exact ⟨metadata, _, by simpa [Event.routes] using hr,
      step_routedPacketConnection st metadata conn,
      RoutedPacketConnection_readCounter _ _ _ _, RoutedPacketConnection_writeCounter _ _ _ _⟩
  | updateUsers users => simp [Event.routes] at hr
  | read i n => simp [Event.routes] at hr
  | write i n => simp [Event.routes] at hr
  | readUser _ => simp [Event.routes] at hr
  | readUsers _ => simp [Event.routes] at hr
  | readGlobal => simp [Event.routes] at hr

theorem step_routeEvent (st : System) (packet : Bool) (metadata : InboundContext)
    (conn : Nat) :
    ∃ r, step st (routeEvent packet metadata conn) =
        { manager := (routeCounters st.manager st.heap metadata).2.1
          heap := (routeCounters st.manager st.heap metadata).2.2
          conns := st.conns ++ [r] } ∧
      r.readCounter = (routeCounters st.manager st.heap metadata).1.1 ∧
      r.writeCounter = (routeCounters st.manager st.heap metadata).1.2 := by
  cases packet
  · exact ⟨_, step_routedConnection st metadata conn,
      RoutedConnection_readCounter _ _ _ _, RoutedConnection_writeCounter _ _ _ _⟩
  · exact ⟨_, step_routedPacketConnection st metadata conn,
      RoutedPacketConnection_readCounter _ _ _ _, RoutedPacketConnection_writeCounter _ _ _ _⟩

theorem ReadUser_of_some (s : TrafficManager) (h : Heap) (user : String) (pu pd : Nat)
    (hu : mapGet s.userUplink user = some pu) (hd : mapGet s.userDownlink user = some pd) :
    ReadUser s h user = (atomicLoad h pu, atomicLoad h pd) := by
  simp [ReadUser, hu, hd]

/-- Counters that belong to no user leave every `ReadUser` alone. -/
theorem ReadUser_addAll_frame (s : TrafficManager) (h : Heap) (cs : List Nat) (n : Nat)
    (v : String)
    (hcs : ∀ c ∈ cs, (∀ k, mapGet s.userUplink k ≠ some c) ∧
      (∀ k, mapGet s.userDownlink k ≠ some c)) :
    ReadUser s (addAll h cs n) v = ReadUser s h v := by
  unfold ReadUser
  have hup : (match mapGet s.userUplink v with
      | some c => atomicLoad (addAll h cs n) c
      | none => 0) = (match mapGet s.userUplink v with
      | some c => atomicLoad h c
      | none => 0) := by
    cases hu : mapGet s.userUplink v with
    | none => rfl
    | some c =>
      exact atomicLoad_addAll_not_mem h cs n c (fun hm => (hcs c hm).1 v hu)
  have hdn : (match mapGet s.userDownlink v with
      | some c => atomicLoad (addAll h cs n) c
      | none => 0) = (match mapGet s.userDownlink v with
      | some c => atomicLoad h c
      | none => 0) := by
    cases hd : mapGet s.userDownlink v with
    | none => rfl
    | some c =>
      exact atomicLoad_addAll_not_mem h cs n c (fun hm => (hcs c hm).2 v hd)
  simp only [hup, hdn]

/-- A routing call for a metered user appends a connection that feeds the
user's registered pair. -/
theorem step_routes_feeds (st : System) (e : Event) (u : String)
    (hi : Inv st.manager st.heap) (hr : e.routes u = true)
    (hm : mapBool st.manager.nodeUsers u = true) :
    ∃ r pu pd, (step st e).conns = st.conns ++ [r] ∧
      mapGet (step st e).manager.userUplink u = some pu ∧
      mapGet (step st e).manager.userDownlink u = some pd ∧
      r.Feeds pu pd ∧
      (step st e).manager.nodeUsers = st.manager.nodeUsers ∧
      (mapGet st.manager.userUplink u = none →
        pu = st.heap.length ∧ pd = st.heap.length + 1) := by
  obtain ⟨metadata, r, hmu, hstep, hrc, hwc⟩ := step_routes st e u hr
  have hf := routeCounters_feeds st.manager st.heap metadata hi
  have hm' : mapBool st.manager.nodeUsers metadata.User = true := by rw [hmu]; exact hm
  obtain ⟨pu, pd, hpu, hpd, h1, h2, h3, h4⟩ := hf.2.2.2.1 hm'
  rw [hmu] at hpu hpd
  refine ⟨r, pu, pd, ?_, ?_, ?_, ?_, ?_, ?_⟩
  · rw [hstep]
  · rw [hstep]; exact hpu
  · rw [hstep]; exact hpd
  · unfold Routed.Feeds
    rw [hrc, hwc]
    exact ⟨hf.1, hf.2.1, h1, h2, h3, h4⟩
  · rw [hstep]; exact (routeCounters_fields st.manager st.heap metadata).2.2.2
  · intro hnone
    have hst := routeCounters_state st.manager st.heap metadata
    rw [hm', if_pos rfl] at hst
    rcases userCounter_cases st.manager st.heap u hi with ⟨a, b, ha, _, _⟩ | ⟨_, _, he⟩
    · rw [hnone] at ha; cases ha
    · rw [← hmu] at he
      rw [he] at hst
      have e1 : (routeCounters st.manager st.heap metadata).2.1.userUplink
          = mapPut st.manager.userUplink metadata.User st.heap.length := by rw [hst]
      have e2 : (routeCounters st.manager st.heap metadata).2.1.userDownlink
          = mapPut st.manager.userDownlink metadata.User (st.heap.length + 1) := by rw [hst]
      rw [e1, hmu, mapGet_put, if_pos rfl] at hpu
      rw [e2, hmu, mapGet_put, if_pos rfl] at hpd
      exact ⟨(Option.some.inj hpu).symm, (Option.some.inj hpd).symm⟩

/-- After a run of routing calls for a metered user, each of the new
connections feeds the user's pair, and no cell has changed. -/
theorem run_routes_feeds (u : String) (routes : List Event) (st : System)
    (hi : Inv st.manager st.heap) (hm : mapBool st.manager.nodeUsers u = true)
    (hroutes : ∀ e ∈ routes, e.routes u = true) (pu pd : Nat)
    (hpu : mapGet (run st routes).manager.userUplink u = some pu)
    (hpd : mapGet (run st routes).manager.userDownlink u = some pd) :
    (run st routes).conns.length = st.conns.length + routes.length ∧
    (∀ i, st.conns.length ≤ i → i < st.conns.length + routes.length →
      ∃ r, (run st routes).conns[i]? = some r ∧ r.Feeds pu pd) ∧
    (run st routes).manager.nodeUsers = st.manager.nodeUsers ∧
    (∀ p, atomicLoad (run st routes).heap p = atomicLoad st.heap p) := by
  induction routes generalizing st with
  | nil =>
    refine ⟨rfl, ?_, rfl, fun _ => rfl⟩
    intro i h1 h2
    simp only [List.length_nil, Nat.add_zero] at h2
    omega
  | cons e rest ih =>
    have he := hroutes e (List.mem_cons_self _ _)
    obtain ⟨r, pu', pd', hconns, hpu', hpd', hfeeds, hnu, _⟩ :=
      step_routes_feeds st e u hi he hm
    rw [run_cons] at hpu hpd ⊢
    have hmono := run_mono (step st e) rest u
    have e1 : pu' = pu := Option.some.inj ((hmono.1 pu' hpu').symm.trans hpu)
    have e2 : pd' = pd := Option.some.inj ((hmono.2 pd' hpd').symm.trans hpd)
    subst e1; subst e2
    have := ih (step st e) (step_inv st e hi) (by rw [hnu]; exact hm)
      (fun e' he' => hroutes e' (List.mem_cons_of_mem _ he')) hpu hpd
    have hlen : (step st e).conns.length = st.conns.length + 1 := by
      rw [hconns]; simp
    refine ⟨?_, ?_, ?_, ?_⟩
    · rw [this.1, hlen, List.length_cons]; omega
    · intro i h1 h2
      rw [List.length_cons] at h2
      by_cases hi0 : i = st.conns.length
      · refine ⟨r, ?_, hfeeds⟩
        apply run_conns
        rw [hconns, hi0]
        simp
      · exact this.2.1 i (by rw [hlen]; omega) (by rw [hlen]; omega)
    · rw [this.2.2.1, hnu]
    · intro p
      rw [this.2.2.2 p]
      exact step_load_of_managerOp st e (by
        cases e <;> simp [Event.routes] at he <;> rfl) p

/-- What the connection appended by a routing call feeds. -/
theorem step_routeEvent_feeds (st : System) (packet : Bool) (metadata : InboundContext)
    (conn : Nat) (hi : Inv st.manager st.heap) :
    ∃ r, (step st (routeEvent packet metadata conn)).conns = st.conns ++ [r] ∧
      (mapBool st.manager.nodeTags metadata.Inbound = true →
        r.Feeds st.manager.globalUplink st.manager.globalDownlink) ∧
      (mapBool st.manager.nodeUsers metadata.User = true →
        ∃ pu pd,
          mapGet (step st (routeEvent packet metadata conn)).manager.userUplink metadata.User
            = some pu ∧
          mapGet (step st (routeEvent packet metadata conn)).manager.userDownlink metadata.User
            = some pd ∧
          r.Feeds pu pd) ∧
      (mapBool st.manager.nodeUsers metadata.User = false →
        (∀ c ∈ r.readCounter, c = st.manager.globalUplink) ∧
        (∀ c ∈ r.writeCounter, c = st.manager.globalDownlink) ∧
        (step st (routeEvent packet metadata conn)).manager = st.manager ∧
        (step st (routeEvent packet metadata conn)).heap = st.heap) := by
  obtain ⟨r, hstep, hrc, hwc⟩ := step_routeEvent st packet metadata conn
  have hf := routeCounters_feeds st.manager st.heap metadata hi
  refine ⟨r, by rw [hstep], ?_, ?_, ?_⟩
  · intro ht
    obtain ⟨h1, h2, h3, h4⟩ := hf.2.2.1 ht
    unfold Routed.Feeds
    rw [hrc, hwc]
    exact ⟨hf.1, hf.2.1, h1, h2, h3, h4⟩
  · intro hu
    obtain ⟨pu, pd, hpu, hpd, h1, h2, h3, h4⟩ := hf.2.2.2.1 hu
    refine ⟨pu, pd, by rw [hstep]; exact hpu, by rw [hstep]; exact hpd, ?_⟩
    unfold Routed.Feeds
    rw [hrc, hwc]
    exact ⟨hf.1, hf.2.1, h1, h2, h3, h4⟩
  · intro hu
    have hst := routeCounters_state st.manager st.heap metadata
    rw [hu] at hst
    simp only [Bool.false_eq_true, if_false] at hst
    rw [hrc, hwc]
    refine ⟨(hf.2.2.2.2 hu).1, (hf.2.2.2.2 hu).2, ?_, ?_⟩
    · rw [hstep]; simp only [hst]
    · rw [hstep]; simp only [hst]

/-- Transfers through connections feeding a pair, in a state satisfying the
invariant: the pair grows by the totals, in 64-bit arithmetic. -/
theorem run_transfers_inv (lo hi up down : Nat) (ios : List Event) (st : System)
    (hinv : Inv st.manager st.heap)
    (hio : ∀ e ∈ ios, e.transfers lo hi = true)
    (hconn : ∀ i, lo ≤ i → i < hi → ∃ r, st.conns[i]? = some r ∧ r.Feeds up down)
    (hup : up < st.heap.length) (hdown : down < st.heap.length) :
    (run st ios).manager = st.manager ∧ (run st ios).conns = st.conns ∧
    atomicLoad (run st ios).heap up = wrapInt64 (atomicLoad st.heap up + readTotal ios) ∧
    atomicLoad (run st ios).heap down
      = wrapInt64 (atomicLoad st.heap down + writeTotal ios) :=
  run_transfers lo hi up down ios st hio hconn hup hdown
    (wrapInt64_of_range _ (hinv.range up).1 (hinv.range up).2)
    (wrapInt64_of_range _ (hinv.range down).1 (hinv.range down).2)

theorem mapBool_foldl_nodes (nodes : List Node) (acc : GoMap Bool) (k : String) :
    mapBool (nodes.foldl (fun m node => mapPut m node.Tag true) acc) k
      = (decide (k ∈ nodes.map (fun node => node.Tag)) || mapBool acc k) := by
  have := mapBool_foldl_put (nodes.map (fun node => node.Tag)) acc k
  rw [List.foldl_map] at this
  exact this

theorem boot_nodeTags (nodes : List Node) (k : String) :
    mapBool (boot nodes).manager.nodeTags k = decide (k ∈ nodes.map (fun node => node.Tag)) := by
  have := mapBool_foldl_nodes nodes [] k
  simpa [boot, NewTrafficManager, mapBool, mapGet] using this

theorem updateUsers_nodeUsers (s : TrafficManager) (users : List String) (k : String) :
    mapBool (UpdateUsers s users).nodeUsers k = decide (k ∈ users) := by
  have := mapBool_foldl_put users [] k
  simpa [UpdateUsers, mapBool, mapGet] using this

/-- The scenario of a fresh manager, one `UpdateUsers`, one routed connection
and transfers through it: user and global totals, in 64-bit arithmetic. -/
theorem fresh_connection_totals (nodes : List Node) (users : List String) (t u : String)
    (packet : Bool) (conn : Nat) (ios : List Event)
    (ht : t ∈ nodes.map (fun node => node.Tag)) (hu : u ∈ users)
    (hio : ∀ e ∈ ios, e.transfers 0 1 = true) :
    ReadUser
        (run (boot nodes) (.updateUsers users :: routeEvent packet ⟨t, u⟩ conn :: ios)).manager
        (run (boot nodes) (.updateUsers users :: routeEvent packet ⟨t, u⟩ conn :: ios)).heap u
      = (wrapInt64 (readTotal ios), wrapInt64 (writeTotal ios)) ∧
    ReadGlobal
        (run (boot nodes) (.updateUsers users :: routeEvent packet ⟨t, u⟩ conn :: ios)).manager
        (run (boot nodes) (.updateUsers users :: routeEvent packet ⟨t, u⟩ conn :: ios)).heap
      = (wrapInt64 (readTotal ios), wrapInt64 (writeTotal ios)) := by
  rw [run_cons, run_cons]
  have hi1 : Inv (step (boot nodes) (.updateUsers users)).manager
      (step (boot nodes) (.updateUsers users)).heap := step_inv _ _ (boot_inv nodes)
  have hload1 : ∀ p, atomicLoad (step (boot nodes) (.updateUsers users)).heap p = 0 := by
    intro p
    have : (step (boot nodes) (.updateUsers users)).heap = ([] ++ [0]) ++ [0] := rfl
    rw [this, atomicLoad_append_zero, atomicLoad_append_zero]
    simp [atomicLoad]
  have htag : mapBool (step (boot nodes) (.updateUsers users)).manager.nodeTags t = true := by
    have : (step (boot nodes) (.updateUsers users)).manager.nodeTags
        = (boot nodes).manager.nodeTags := rfl
    rw [this, boot_nodeTags]; simpa using ht
  have husr : mapBool (step (boot nodes) (.updateUsers users)).manager.nodeUsers u = true := by
    have : (step (boot nodes) (.updateUsers users)).manager
        = UpdateUsers (boot nodes).manager users := rfl
    rw [this, updateUsers_nodeUsers]; simpa using hu
  have hconns1 : (step (boot nodes) (.updateUsers users)).conns = [] := rfl
  generalize step (boot nodes) (.updateUsers users) = st1 at hi1 hload1 htag husr hconns1
  obtain ⟨r, hconns, hg, hup, _⟩ := step_routeEvent_feeds st1 packet ⟨t, u⟩ conn hi1
  have hg := hg htag
  obtain ⟨pu, pd, hpu, hpd, hfeed⟩ := hup husr
  have hi2 := step_inv st1 (routeEvent packet ⟨t, u⟩ conn) hi1
  have hfields := step_fields st1 (routeEvent packet ⟨t, u⟩ conn)
  have hload2 : ∀ p, atomicLoad (step st1 (routeEvent packet ⟨t, u⟩ conn)).heap p = 0 := by
    intro p
    rw [step_load_of_managerOp st1 _ (by cases packet <;> rfl) p]
    exact hload1 p
  rw [hconns1, List.nil_append] at hconns
  generalize step st1 (routeEvent packet ⟨t, u⟩ conn) = st2 at hconns hpu hpd hi2 hfields hload2
  rw [← hfields.1, ← hfields.2.1] at hg
  have hc : ∀ (a b : Nat), r.Feeds a b →
      ∀ i, 0 ≤ i → i < 1 → ∃ r', st2.conns[i]? = some r' ∧ r'.Feeds a b := by
    intro a b hab i _ h1
    have : i = 0 := by omega
    subst this
    exact ⟨r, by rw [hconns]; rfl, hab⟩
  have hU := run_transfers_inv 0 1 pu pd ios st2 hi2 hio (hc pu pd hfeed)
    (hi2.upOwned _ _ hpu).1 (hi2.downOwned _ _ hpd).1
  have hG := run_transfers_inv 0 1 st2.manager.globalUplink st2.manager.globalDownlink ios st2
    hi2 hio (hc _ _ hg) hi2.globalUp hi2.globalDown
  constructor
  · rw [ReadUser_of_some _ _ u pu pd (by rw [hU.1]; exact hpu) (by rw [hU.1]; exact hpd),
      hU.2.2.1, hU.2.2.2, hload2, hload2]
    simp
  · unfold ReadGlobal
    rw [hG.1, hG.2.2.1, hG.2.2.2, hload2, hload2]
    simp

/-- Traffic through a connection that was routed for a user who was not
metered then changes no user's counters, whatever happened since. -/
theorem unmetered_connection_frame (st : System) (hi : Inv st.manager st.heap)
    (packet : Bool) (metadata : InboundContext) (conn : Nat) (later : List Event)
    (n : Nat) (v : String) (hm : mapBool st.manager.nodeUsers metadata.User = false) :
    ReadUser
        (step (run (step st (routeEvent packet metadata conn)) later)
          (.read st.conns.length n)).manager
        (step (run (step st (routeEvent packet metadata conn)) later)
          (.read st.conns.length n)).heap v
      = ReadUser (run (step st (routeEvent packet metadata conn)) later).manager
          (run (step st (routeEvent packet metadata conn)) later).heap v ∧
    ReadUser
        (step (run (step st (routeEvent packet metadata conn)) later)
          (.write st.conns.length n)).manager
        (step (run (step st (routeEvent packet metadata conn)) later)
          (.write st.conns.length n)).heap v
      = ReadUser (run (step st (routeEvent packet metadata conn)) later).manager
          (run (step st (routeEvent packet metadata conn)) later).heap v := by
  obtain ⟨r, hconns, _, _, hun⟩ := step_routeEvent_feeds st packet metadata conn hi
  obtain ⟨hrc, hwc, _, _⟩ := hun hm
  have hi1 := step_inv st (routeEvent packet metadata conn) hi
  have hf1 := step_fields st (routeEvent packet metadata conn)
  have hc1 : (step st (routeEvent packet metadata conn)).conns[st.conns.length]? = some r := by
    rw [hconns]; simp
  generalize step st (routeEvent packet metadata conn) = st1 at hi1 hf1 hc1
  have hi2 := run_inv st1 later hi1
  have hf2 := run_fields st1 later
  have hc2 := run_conns st1 later _ r hc1
  generalize run st1 later = st2 at hi2 hf2 hc2
  have hgu : st2.manager.globalUplink = st.manager.globalUplink := hf2.1.trans hf1.1
  have hgd : st2.manager.globalDownlink = st.manager.globalDownlink := hf2.2.1.trans hf1.2.1
  constructor
  · rw [step_read st2 _ n r hc2]
    apply ReadUser_addAll_frame
    intro c hc
    have hcg : c = st2.manager.globalUplink := by rw [hgu]; exact hrc c hc
    exact ⟨fun k hk => (hi2.upOwned k c hk).2.1 hcg, fun k hk => (hi2.downOwned k c hk).2.1 hcg⟩
  · rw [step_write st2 _ n r hc2]
    apply ReadUser_addAll_frame
    intro c hc
    have hcg : c = st2.manager.globalDownlink := by rw [hgd]; exact hwc c hc
    exact ⟨fun k hk => (hi2.upOwned k c hk).2.2 hcg, fun k hk => (hi2.downOwned k c hk).2.2 hcg⟩

/-- With the tag metered and the user not, transfers through the new
connection add their totals to the global pair, in 64-bit arithmetic, and
leave the manager as it was. -/
theorem global_only_connection_totals (st : System) (hi : Inv st.manager st.heap)
    (packet : Bool) (metadata : InboundContext) (conn : Nat) (ios : List Event)
    (ht : mapBool st.manager.nodeTags metadata.Inbound = true)
    (hm : mapBool st.manager.nodeUsers metadata.User = false)
    (hio : ∀ e ∈ ios, e.transfers st.conns.length (st.conns.length + 1) = true) :
    (run (step st (routeEvent packet metadata conn)) ios).manager = st.manager ∧
    ReadGlobal (run (step st (routeEvent packet metadata conn)) ios).manager
        (run (step st (routeEvent packet metadata conn)) ios).heap
      = (wrapInt64 ((ReadGlobal st.manager st.heap).1 + readTotal ios),
         wrapInt64 ((ReadGlobal st.manager st.heap).2 + writeTotal ios)) := by
  obtain ⟨r, hconns, hg, _, hun⟩ := step_routeEvent_feeds st packet metadata conn hi
  have hg := hg ht
  obtain ⟨_, _, hman, hheap⟩ := hun hm
  have hi1 := step_inv st (routeEvent packet metadata conn) hi
  generalize step st (routeEvent packet metadata conn) = st1 at hi1 hconns hman hheap
  have hT := run_transfers_inv st.conns.length (st.conns.length + 1)
    st.manager.globalUplink st.manager.globalDownlink ios st1 hi1 hio
    (by
      intro i h1 h2
      have : i = st.conns.length := by omega
      subst this
      exact ⟨r, by rw [hconns]; simp, hg⟩)
    (by rw [hheap]; exact hi.globalUp) (by rw [hheap]; exact hi.globalDown)
  refine ⟨hT.1.trans hman, ?_⟩
  unfold ReadGlobal
  rw [hT.1, hman, hT.2.2.1, hT.2.2.2, hheap]

/-! ## Totals of a routed connection -/

/-- C2, as amended: on a manager built from a node list containing tag `t`,
after `UpdateUsers` with a list containing `u` and one connection routed with
`Inbound = t`, `User = u`, every sequence of reads and writes through that
connection whose byte totals stay below `2 ^ 63` leaves `ReadUser(u)` and
`ReadGlobal()` both equal to (bytes read, bytes written). -/
theorem C2_totals_below_int64_limit (nodes : List Node) (users : List String)
    (t u : String) (packet : Bool) (conn : Nat) (ios : List Event)
    (ht : t ∈ nodes.map (fun node => node.Tag)) (hu : u ∈ users)
    (hio : ∀ e ∈ ios, e.transfers 0 1 = true)
    (hr : readTotal ios < 2 ^ 63) (hw : writeTotal ios < 2 ^ 63) :
    ReadUser
        (run (boot nodes) (.updateUsers users :: routeEvent packet ⟨t, u⟩ conn :: ios)).manager
        (run (boot nodes) (.updateUsers users :: routeEvent packet ⟨t, u⟩ conn :: ios)).heap u
      = ((readTotal ios : Int), (writeTotal ios : Int)) ∧
    ReadGlobal
        (run (boot nodes) (.updateUsers users :: routeEvent packet ⟨t, u⟩ conn :: ios)).manager
        (run (boot nodes) (.updateUsers users :: routeEvent packet ⟨t, u⟩ conn :: ios)).heap
      = ((readTotal ios : Int), (writeTotal ios : Int)) := by
  have h := fresh_connection_totals nodes users t u packet conn ios ht hu hio
  have e1 : wrapInt64 (readTotal ios) = (readTotal ios : Int) :=
    wrapInt64_of_range _ (by omega) (by exact_mod_cast hr)
  have e2 : wrapInt64 (writeTotal ios) = (writeTotal ios : Int) :=
    wrapInt64_of_range _ (by omega) (by exact_mod_cast hw)
  rw [e1, e2] at h
  exact h

/-- The witness of C2: tag `"in-ss"`, user `"alice"`, one read of 50 bytes and
one write of 100 bytes. -/
theorem C2_totals_below_int64_limit_witness :
    ReadUser
        (run (boot [⟨"in-ss", "shadowsocks"⟩])
          [.updateUsers ["alice"], .routedConnection ⟨"in-ss", "alice"⟩ 7,
            .read 0 50, .write 0 100]).manager
        (run (boot [⟨"in-ss", "shadowsocks"⟩])
          [.updateUsers ["alice"], .routedConnection ⟨"in-ss", "alice"⟩ 7,
            .read 0 50, .write 0 100]).heap "alice" = (50, 100) ∧
    ReadGlobal
        (run (boot [⟨"in-ss", "shadowsocks"⟩])
          [.updateUsers ["alice"], .routedConnection ⟨"in-ss", "alice"⟩ 7,
            .read 0 50, .write 0 100]).manager
        (run (boot [⟨"in-ss", "shadowsocks"⟩])
          [.updateUsers ["alice"], .routedConnection ⟨"in-ss", "alice"⟩ 7,
            .read 0 50, .write 0 100]).heap = (50, 100) :=
  C2_totals_below_int64_limit [⟨"in-ss", "shadowsocks"⟩] ["alice"] "in-ss" "alice" false 7
    [.read 0 50, .write 0 100] (by decide) (by decide) (by decide) (by decide) (by decide)

/-- The counterexample to C2 as stated: two reads of `2 ^ 62` bytes through the
one connection of `"alice"` leave her upload counter, and the global one, at
`-2 ^ 63`, not at the sum `2 ^ 63` of the bytes read. -/
theorem C2_totals_wrap_at_int64_limit :
    ReadUser
        (run (boot [⟨"in-ss", "shadowsocks"⟩])
          [.updateUsers ["alice"], .routedConnection ⟨"in-ss", "alice"⟩ 7,
            .read 0 (2 ^ 62), .read 0 (2 ^ 62)]).manager
        (run (boot [⟨"in-ss", "shadowsocks"⟩])
          [.updateUsers ["alice"], .routedConnection ⟨"in-ss", "alice"⟩ 7,
            .read 0 (2 ^ 62), .read 0 (2 ^ 62)]).heap "alice" = (-2 ^ 63, 0) ∧
    ReadGlobal
        (run (boot [⟨"in-ss", "shadowsocks"⟩])
          [.updateUsers ["alice"], .routedConnection ⟨"in-ss", "alice"⟩ 7,
            .read 0 (2 ^ 62), .read 0 (2 ^ 62)]).manager
        (run (boot [⟨"in-ss", "shadowsocks"⟩])
          [.updateUsers ["alice"], .routedConnection ⟨"in-ss", "alice"⟩ 7,
            .read 0 (2 ^ 62), .read 0 (2 ^ 62)]).heap = (-2 ^ 63, 0) ∧
    readTotal [Event.read 0 (2 ^ 62), Event.read 0 (2 ^ 62)] = 2 ^ 63 ∧
    ((-2 ^ 63 : Int), (0 : Int)) ≠
      ((readTotal [Event.read 0 (2 ^ 62), Event.read 0 (2 ^ 62)] : Int),
       (writeTotal [Event.read 0 (2 ^ 62), Event.read 0 (2 ^ 62)] : Int)) := by
  decide

/-! ## A user who is not metered -/

/-- C3, as amended: in every reachable state, a routing call (of either kind)
whose `metadata.User` is not metered leaves the manager and the heap as they
were, so no counter pair is created; whatever happens later, a read or write
through the returned connection changes no `ReadUser`; and when the tag is
metered, transfers through the connection raise the global counters by
exactly the bytes read and written as long as both stay below `2 ^ 63`,
while `ReadUser` of a user without an entry is still `(0, 0)`. -/
theorem C3_unmetered_user_leaves_registry (nodes : List Node) (evs : List Event)
    (packet : Bool) (metadata : InboundContext) (conn : Nat) (later ios : List Event)
    (n : Nat) (v : String)
    (hm : mapBool (run (boot nodes) evs).manager.nodeUsers metadata.User = false) :
    (step (run (boot nodes) evs) (routeEvent packet metadata conn)).manager
      = (run (boot nodes) evs).manager ∧
    (step (run (boot nodes) evs) (routeEvent packet metadata conn)).heap
      = (run (boot nodes) evs).heap ∧
    ReadUser
        (step (run (step (run (boot nodes) evs) (routeEvent packet metadata conn)) later)
          (.read (run (boot nodes) evs).conns.length n)).manager
        (step (run (step (run (boot nodes) evs) (routeEvent packet metadata conn)) later)
          (.read (run (boot nodes) evs).conns.length n)).heap v
      = ReadUser
          (run (step (run (boot nodes) evs) (routeEvent packet metadata conn)) later).manager
          (run (step (run (boot nodes) evs) (routeEvent packet metadata conn)) later).heap v ∧
    ReadUser
        (step (run (step (run (boot nodes) evs) (routeEvent packet metadata conn)) later)
          (.write (run (boot nodes) evs).conns.length n)).manager
        (step (run (step (run (boot nodes) evs) (routeEvent packet metadata conn)) later)
          (.write (run (boot nodes) evs).conns.length n)).heap v
      = ReadUser
          (run (step (run (boot nodes) evs) (routeEvent packet metadata conn)) later).manager
          (run (step (run (boot nodes) evs) (routeEvent packet metadata conn)) later).heap v ∧
    (mapBool (run (boot nodes) evs).manager.nodeTags metadata.Inbound = true →
      (∀ e ∈ ios, e.transfers (run (boot nodes) evs).conns.length
        ((run (boot nodes) evs).conns.length + 1) = true) →
      (ReadGlobal (run (boot nodes) evs).manager (run (boot nodes) evs).heap).1
        + readTotal ios < 2 ^ 63 →
      (ReadGlobal (run (boot nodes) evs).manager (run (boot nodes) evs).heap).2
        + writeTotal ios < 2 ^ 63 →
      mapGet (run (boot nodes) evs).manager.userUplink metadata.User = none →
      ReadGlobal
          (run (step (run (boot nodes) evs) (routeEvent packet metadata conn)) ios).manager
          (run (step (run (boot nodes) evs) (routeEvent packet metadata conn)) ios).heap
        = ((ReadGlobal (run (boot nodes) evs).manager (run (boot nodes) evs).heap).1
              + readTotal ios,
           (ReadGlobal (run (boot nodes) evs).manager (run (boot nodes) evs).heap).2
              + writeTotal ios) ∧
      ReadUser
          (run (step (run (boot nodes) evs) (routeEvent packet metadata conn)) ios).manager
          (run (step (run (boot nodes) evs) (routeEvent packet metadata conn)) ios).heap
          metadata.User = (0, 0)) := by
  have hi := reachable_inv nodes evs
  generalize run (boot nodes) evs = st at hi hm
  obtain ⟨_, _, _, _, hun⟩ := step_routeEvent_feeds st packet metadata conn hi
  obtain ⟨_, _, hman, hheap⟩ := hun hm
  have hframe := unmetered_connection_frame st hi packet metadata conn later n v hm
  refine ⟨hman, hheap, hframe.1, hframe.2, ?_⟩
  intro ht hio hr hw hnone
  have hT := global_only_connection_totals st hi packet metadata conn ios ht hm hio
  have hru := hi.range st.manager.globalUplink
  have hrd := hi.range st.manager.globalDownlink
  constructor
  · rw [hT.2]
    simp only [ReadGlobal] at hr hw ⊢
    rw [wrapInt64_of_range _ (by omega) hr, wrapInt64_of_range _ (by omega) hw]
  · rw [hT.1]
    exact ReadUser_of_none _ _ _ hnone ((mapGet_none_of_keys_eq _ _ _ hi.keys).1 hnone)

/-- The witness of C3: `"bob"` is not metered, the tag `"in-ss"` is; 30 bytes
read and 40 written. -/
theorem C3_unmetered_user_leaves_registry_witness :
    ReadGlobal
        (run (step (run (boot [⟨"in-ss", "shadowsocks"⟩]) [.updateUsers ["alice"]])
          (routeEvent false ⟨"in-ss", "bob"⟩ 9)) [.read 0 30, .write 0 40]).manager
        (run (step (run (boot [⟨"in-ss", "shadowsocks"⟩]) [.updateUsers ["alice"]])
          (routeEvent false ⟨"in-ss", "bob"⟩ 9)) [.read 0 30, .write 0 40]).heap
      = (30, 40) ∧
    ReadUser
        (run (step (run (boot [⟨"in-ss", "shadowsocks"⟩]) [.updateUsers ["alice"]])
          (routeEvent false ⟨"in-ss", "bob"⟩ 9)) [.read 0 30, .write 0 40]).manager
        (run (step (run (boot [⟨"in-ss", "shadowsocks"⟩]) [.updateUsers ["alice"]])
          (routeEvent false ⟨"in-ss", "bob"⟩ 9)) [.read 0 30, .write 0 40]).heap
        "bob" = (0, 0) :=
  (C3_unmetered_user_leaves_registry [⟨"in-ss", "shadowsocks"⟩] [.updateUsers ["alice"]]
    false ⟨"in-ss", "bob"⟩ 9 [] [.read 0 30, .write 0 40] 5 "alice" (by decide)).2.2.2.2
    (by decide) (by decide) (by decide) (by decide) (by decide)

/-- The counterexample to C3 as stated: with the tag metered, `"bob"` neither
metered nor registered, and the global upload counter at `2 ^ 63 - 1`,
30 bytes read and 40 written through the connection of `"bob"` take the
global counters from `(2 ^ 63 - 1, 0)` to `(-2 ^ 63 + 29, 40)`: the upload
counter is not raised by 30. -/
theorem C3_global_counter_wraps :
    mapBool (run (boot [⟨"in-ss", "shadowsocks"⟩])
      [.routedConnection ⟨"in-ss", "carol"⟩ 1, .read 0 (2 ^ 63 - 1)]).manager.nodeTags
      "in-ss" = true ∧
    mapBool (run (boot [⟨"in-ss", "shadowsocks"⟩])
      [.routedConnection ⟨"in-ss", "carol"⟩ 1, .read 0 (2 ^ 63 - 1)]).manager.nodeUsers
      "bob" = false ∧
    mapGet (run (boot [⟨"in-ss", "shadowsocks"⟩])
      [.routedConnection ⟨"in-ss", "carol"⟩ 1, .read 0 (2 ^ 63 - 1)]).manager.userUplink
      "bob" = none ∧
    ReadGlobal
        (run (boot [⟨"in-ss", "shadowsocks"⟩])
          [.routedConnection ⟨"in-ss", "carol"⟩ 1, .read 0 (2 ^ 63 - 1)]).manager
        (run (boot [⟨"in-ss", "shadowsocks"⟩])
          [.routedConnection ⟨"in-ss", "carol"⟩ 1, .read 0 (2 ^ 63 - 1)]).heap
      = (2 ^ 63 - 1, 0) ∧
    ReadGlobal
        (run (boot [⟨"in-ss", "shadowsocks"⟩])
          [.routedConnection ⟨"in-ss", "carol"⟩ 1, .read 0 (2 ^ 63 - 1),
            .routedConnection ⟨"in-ss", "bob"⟩ 2, .read 1 30, .write 1 40]).manager
        (run (boot [⟨"in-ss", "shadowsocks"⟩])
          [.routedConnection ⟨"in-ss", "carol"⟩ 1, .read 0 (2 ^ 63 - 1),
            .routedConnection ⟨"in-ss", "bob"⟩ 2, .read 1 30, .write 1 40]).heap
      = (-2 ^ 63 + 29, 40) ∧
    ((-2 ^ 63 + 29 : Int), (40 : Int)) ≠ (2 ^ 63 - 1 + 30, 0 + 40) := by
  decide

/-! ## The counter list is fixed at the routing call -/

/-- A connection routed for a user who was metered then counts every later
transfer toward that user's pair, in 64-bit arithmetic. -/
theorem metered_connection_counts (st : System) (hi : Inv st.manager st.heap)
    (packet : Bool) (metadata : InboundContext) (conn : Nat) (later : List Event)
    (n : Nat) (hm : mapBool st.manager.nodeUsers metadata.User = true) :
    ReadUser
        (step (run (step st (routeEvent packet metadata conn)) later)
          (.read st.conns.length n)).manager
        (step (run (step st (routeEvent packet metadata conn)) later)
          (.read st.conns.length n)).heap metadata.User
      = (wrapInt64 ((ReadUser (run (step st (routeEvent packet metadata conn)) later).manager
            (run (step st (routeEvent packet metadata conn)) later).heap metadata.User).1 + n),
         (ReadUser (run (step st (routeEvent packet metadata conn)) later).manager
            (run (step st (routeEvent packet metadata conn)) later).heap metadata.User).2) ∧
    ReadUser
        (step (run (step st (routeEvent packet metadata conn)) later)
          (.write st.conns.length n)).manager
        (step (run (step st (routeEvent packet metadata conn)) later)
          (.write st.conns.length n)).heap metadata.User
      = ((ReadUser (run (step st (routeEvent packet metadata conn)) later).manager
            (run (step st (routeEvent packet metadata conn)) later).heap metadata.User).1,
         wrapInt64 ((ReadUser (run (step st (routeEvent packet metadata conn)) later).manager
            (run (step st (routeEvent packet metadata conn)) later).heap metadata.User).2 + n)) ∧
    -2 ^ 63 ≤ (ReadUser (run (step st (routeEvent packet metadata conn)) later).manager
            (run (step st (routeEvent packet metadata conn)) later).heap metadata.User).1 ∧
    -2 ^ 63 ≤ (ReadUser (run (step st (routeEvent packet metadata conn)) later).manager
            (run (step st (routeEvent packet metadata conn)) later).heap metadata.User).2 := by
  obtain ⟨r, hconns, _, hus, _⟩ := step_routeEvent_feeds st packet metadata conn hi
  obtain ⟨pu, pd, hpu, hpd, hfeed⟩ := hus hm
  have hi1 := step_inv st (routeEvent packet metadata conn) hi
  have hc1 : (step st (routeEvent packet metadata conn)).conns[st.conns.length]? = some r := by
    rw [hconns]; simp
  generalize step st (routeEvent packet metadata conn) = st1 at hi1 hc1 hpu hpd
  have hi2 := run_inv st1 later hi1
  have hc2 := run_conns st1 later _ r hc1
  have hpu2 := (run_mono st1 later metadata.User).1 pu hpu
  have hpd2 := (run_mono st1 later metadata.User).2 pd hpd
  generalize run st1 later = st2 at hi2 hc2 hpu2 hpd2
  have hconn : ∀ i, st.conns.length ≤ i → i < st.conns.length + 1 →
      ∃ r', st2.conns[i]? = some r' ∧ r'.Feeds pu pd := by
    intro i h1 h2
    have : i = st.conns.length := by omega
    subst this
    exact ⟨r, hc2, hfeed⟩
  have hR := run_transfers_inv st.conns.length (st.conns.length + 1) pu pd
    [.read st.conns.length n] st2 hi2 (by simp [Event.transfers]) hconn
    (hi2.upOwned _ _ hpu2).1 (hi2.downOwned _ _ hpd2).1
  have hW := run_transfers_inv st.conns.length (st.conns.length + 1) pu pd
    [.write st.conns.length n] st2 hi2 (by simp [Event.transfers]) hconn
    (hi2.upOwned _ _ hpu2).1 (hi2.downOwned _ _ hpd2).1
  have hrun : ∀ e, run st2 [e] = step st2 e := fun _ => rfl
  rw [hrun] at hR hW
  have hru := hi2.range pu
  have hrd := hi2.range pd
  have e0 : ReadUser st2.manager st2.heap metadata.User
      = (atomicLoad st2.heap pu, atomicLoad st2.heap pd) :=
    ReadUser_of_some _ _ _ pu pd hpu2 hpd2
  rw [e0]
  refine ⟨?_, ?_, hru.1, hrd.1⟩
  · rw [ReadUser_of_some _ _ _ pu pd (by rw [hR.1]; exact hpu2) (by rw [hR.1]; exact hpd2),
      hR.2.2.1, hR.2.2.2]
    simp only [readTotal, writeTotal]
    rw [wrapInt64_of_range (atomicLoad st2.heap pd + ((0 : Nat) : Int))
      (by simp; exact hrd.1) (by simp; exact hrd.2)]
    simp
  · rw [ReadUser_of_some _ _ _ pu pd (by rw [hW.1]; exact hpu2) (by rw [hW.1]; exact hpd2),
      hW.2.2.1, hW.2.2.2]
    simp only [readTotal, writeTotal]
    rw [wrapInt64_of_range (atomicLoad st2.heap pu + ((0 : Nat) : Int))
      (by simp; exact hru.1) (by simp; exact hru.2)]
    simp

/-- C8, as amended: in every reachable state, the connection returned by a
routing call keeps the counter list chosen at the call. If the user was
metered then, after any later events, among them an `UpdateUsers` with any
list (so also one without the user), a read or write of `n` bytes through it
raises the upload or download half of `ReadUser` of that user by `n`, as long
as the result stays below `2 ^ 63`. If the user was not metered then, after
any later events, among them an `UpdateUsers` with any list (so also one with
the user), a read or write through it leaves `ReadUser` of that user as it
was. -/
theorem C8_counters_fixed_at_routing (nodes : List Node) (evs : List Event)
    (packet : Bool) (metadata : InboundContext) (conn : Nat)
    (later1 : List Event) (users : List String) (later2 : List Event) (n : Nat) :
    let st := run (boot nodes) evs
    let i := st.conns.length
    let st2 := run (step st (routeEvent packet metadata conn))
      (later1 ++ .updateUsers users :: later2)
    let before := ReadUser st2.manager st2.heap metadata.User
    let afterRead :=
      ReadUser (step st2 (.read i n)).manager (step st2 (.read i n)).heap metadata.User
    let afterWrite :=
      ReadUser (step st2 (.write i n)).manager (step st2 (.write i n)).heap metadata.User
    (mapBool st.manager.nodeUsers metadata.User = true →
      (before.1 + n < 2 ^ 63 → afterRead = (before.1 + n, before.2)) ∧
      (before.2 + n < 2 ^ 63 → afterWrite = (before.1, before.2 + n))) ∧
    (mapBool st.manager.nodeUsers metadata.User = false →
      afterRead = before ∧ afterWrite = before) := by
  intro st i st2 before afterRead afterWrite
  have hi : Inv st.manager st.heap := reachable_inv nodes evs
  constructor
  · intro hm
    have h := metered_connection_counts st hi packet metadata conn
      (later1 ++ .updateUsers users :: later2) n hm
    constructor
    · intro hb
      have e : afterRead = (wrapInt64 (before.1 + n), before.2) := h.1
      have hlo : -2 ^ 63 ≤ before.1 := h.2.2.1
      rw [e, wrapInt64_of_range _ (by omega) hb]
    · intro hb
      have e : afterWrite = (before.1, wrapInt64 (before.2 + n)) := h.2.1
      have hlo : -2 ^ 63 ≤ before.2 := h.2.2.2
      rw [e, wrapInt64_of_range _ (by omega) hb]
  · intro hm
    exact unmetered_connection_frame st hi packet metadata conn
      (later1 ++ .updateUsers users :: later2) n metadata.User hm

/-- The witness of C8: `"alice"` is routed while metered, 50 bytes are read,
she is dropped from the metered set, and 8 more bytes read still count. -/
theorem C8_counters_fixed_at_routing_witness :
    ReadUser
      (step (run (step (run (boot [⟨"in-ss", "shadowsocks"⟩]) [.updateUsers ["alice"]])
          (routeEvent false ⟨"in-ss", "alice"⟩ 7)) ([.read 0 50] ++ .updateUsers [] :: []))
        (.read 0 8)).manager
      (step (run (step (run (boot [⟨"in-ss", "shadowsocks"⟩]) [.updateUsers ["alice"]])
          (routeEvent false ⟨"in-ss", "alice"⟩ 7)) ([.read 0 50] ++ .updateUsers [] :: []))
        (.read 0 8)).heap "alice" = (58, 0) :=
  ((C8_counters_fixed_at_routing [⟨"in-ss", "shadowsocks"⟩] [.updateUsers ["alice"]]
    false ⟨"in-ss", "alice"⟩ 7 [.read 0 50] [] [] 8).1 (by decide)).1 (by decide)

/-- The counterexample to C8 as stated: `"alice"` is routed while metered and
reads `2 ^ 63 - 1` bytes; after `UpdateUsers` with the empty list, one more
byte read through the same connection takes `ReadUser("alice")` from
`(2 ^ 63 - 1, 0)` to `(-2 ^ 63, 0)`: it does not grow by 1. -/
theorem C8_user_counter_wraps :
    mapBool (run (boot [⟨"in-ss", "shadowsocks"⟩]) [.updateUsers ["alice"]]).manager.nodeUsers
      "alice" = true ∧
    ReadUser
        (run (boot [⟨"in-ss", "shadowsocks"⟩])
          [.updateUsers ["alice"], .routedConnection ⟨"in-ss", "alice"⟩ 7,
            .read 0 (2 ^ 63 - 1), .updateUsers []]).manager
        (run (boot [⟨"in-ss", "shadowsocks"⟩])
          [.updateUsers ["alice"], .routedConnection ⟨"in-ss", "alice"⟩ 7,
            .read 0 (2 ^ 63 - 1), .updateUsers []]).heap "alice" = (2 ^ 63 - 1, 0) ∧
    ReadUser
        (run (boot [⟨"in-ss", "shadowsocks"⟩])
          [.updateUsers ["alice"], .routedConnection ⟨"in-ss", "alice"⟩ 7,
            .read 0 (2 ^ 63 - 1), .updateUsers [], .read 0 1]).manager
        (run (boot [⟨"in-ss", "shadowsocks"⟩])
          [.updateUsers ["alice"], .routedConnection ⟨"in-ss", "alice"⟩ 7,
            .read 0 (2 ^ 63 - 1), .updateUsers [], .read 0 1]).heap "alice" = (-2 ^ 63, 0) ∧
    ((-2 ^ 63 : Int), (0 : Int)) ≠ (2 ^ 63 - 1 + 1, 0) := by
  decide

/-! ## One counter pair per username -/

theorem registry_count_one (s : TrafficManager) (h : Heap) (u : String) (pu : Nat)
    (hi : Inv s h) (hpu : mapGet s.userUplink u = some pu) :
    (mapKeys s.userUplink).count u = 1 ∧ (mapKeys s.userDownlink).count u = 1 := by
  have hmem : u ∈ mapKeys s.userUplink := by
    by_contra hc
    rw [(mapGet_eq_none_iff _ _).2 hc] at hpu
    cases hpu
  have h1 := List.count_eq_one_of_mem hi.keysNodup hmem
  exact ⟨h1, by rw [← hi.keys]; exact h1⟩

theorem routes_isManagerOp (e : Event) (u : String) (he : e.routes u = true) :
    e.isManagerOp = true := by
  cases e <;> simp [Event.routes] at he <;> rfl

theorem atomicLoad_unallocated (h : Heap) (p : Nat) (hp : h.length ≤ p) :
    atomicLoad h p = 0 := by
  unfold atomicLoad
  exact List.getD_eq_default _ _ hp

/-- The registry entry of a metered, so far unseen user after one or more
routing calls for that user: the pair allocated by the first call. -/
theorem run_routes_entry (u : String) (st : System) (hi : Inv st.manager st.heap)
    (hm : mapBool st.manager.nodeUsers u = true)
    (hnew : mapGet st.manager.userUplink u = none)
    (e : Event) (rest : List Event) (he : e.routes u = true) :
    mapGet (run st (e :: rest)).manager.userUplink u = some st.heap.length ∧
    mapGet (run st (e :: rest)).manager.userDownlink u = some (st.heap.length + 1) := by
  obtain ⟨_, pu, pd, _, hpu, hpd, _, _, hfresh⟩ := step_routes_feeds st e u hi he hm
  obtain ⟨e1, e2⟩ := hfresh hnew
  subst e1; subst e2
  rw [run_cons]
  exact ⟨(run_mono (step st e) rest u).1 _ hpu, (run_mono (step st e) rest u).2 _ hpd⟩

/-- C9, as amended: in every reachable state in which `u` is metered and has
no entry, let `K ≥ 1` routing calls for `u` be applied in any order, each as
one atomic step. After the first call and after every later one the registry
holds the same pair for `u`, the two cells allocated by the first call, still
zero, and `u` occurs exactly once among the keys of each map; each of the `K`
connections carries that pair. After any interleaving of reads and writes
through the `K` connections whose byte totals stay below `2 ^ 63`,
`ReadUser(u)` is (bytes read, bytes written); and one more routing call for
`u` after the traffic neither replaces nor zeroes the pair. -/
theorem C9_one_pair_per_user (nodes : List Node) (evs : List Event) (u : String)
    (routes ios : List Event) (extra : Event)
    (hm : mapBool (run (boot nodes) evs).manager.nodeUsers u = true)
    (hnew : mapGet (run (boot nodes) evs).manager.userUplink u = none)
    (hK : 1 ≤ routes.length)
    (hroutes : ∀ e ∈ routes, e.routes u = true)
    (hio : ∀ e ∈ ios, e.transfers (run (boot nodes) evs).conns.length
      ((run (boot nodes) evs).conns.length + routes.length) = true)
    (hr : readTotal ios < 2 ^ 63) (hw : writeTotal ios < 2 ^ 63)
    (hextra : extra.routes u = true) :
    let st := run (boot nodes) evs
    let pu := st.heap.length
    let pd := st.heap.length + 1
    let fin := run st (routes ++ ios)
    (∀ j, 1 ≤ j → j ≤ routes.length →
      mapGet (run st (routes.take j)).manager.userUplink u = some pu ∧
      mapGet (run st (routes.take j)).manager.userDownlink u = some pd ∧
      atomicLoad (run st (routes.take j)).heap pu = 0 ∧
      atomicLoad (run st (routes.take j)).heap pd = 0 ∧
      (mapKeys (run st (routes.take j)).manager.userUplink).count u = 1 ∧
      (mapKeys (run st (routes.take j)).manager.userDownlink).count u = 1) ∧
    (∀ i, st.conns.length ≤ i → i < st.conns.length + routes.length →
      ∃ r, (run st routes).conns[i]? = some r ∧ r.Feeds pu pd) ∧
    (mapKeys fin.manager.userUplink).count u = 1 ∧
    (mapKeys fin.manager.userDownlink).count u = 1 ∧
    ReadUser fin.manager fin.heap u = ((readTotal ios : Int), (writeTotal ios : Int)) ∧
    mapGet (step fin extra).manager.userUplink u = some pu ∧
    mapGet (step fin extra).manager.userDownlink u = some pd ∧
    ReadUser (step fin extra).manager (step fin extra).heap u
      = ((readTotal ios : Int), (writeTotal ios : Int)) := by
  intro st pu pd fin
  have hi : Inv st.manager st.heap := reachable_inv nodes evs
  have hentry : ∀ rs : List Event, 1 ≤ rs.length → (∀ e ∈ rs, e.routes u = true) →
      mapGet (run st rs).manager.userUplink u = some pu ∧
      mapGet (run st rs).manager.userDownlink u = some pd := by
    intro rs hlen hrs
    cases rs with
    | nil => simp at hlen
    | cons e rest =>
      exact run_routes_entry u st hi hm hnew e rest (hrs e (List.mem_cons_self _ _))
  have hzu : atomicLoad st.heap pu = 0 := atomicLoad_unallocated _ _ (Nat.le_refl _)
  have hzd : atomicLoad st.heap pd = 0 := atomicLoad_unallocated _ _ (Nat.le_succ _)
  have hE := hentry routes hK hroutes
  have hF := run_routes_feeds u routes st hi hm hroutes pu pd hE.1 hE.2
  have hi1 : Inv (run st routes).manager (run st routes).heap := run_inv st routes hi
  have hT := run_transfers_inv st.conns.length (st.conns.length + routes.length) pu pd ios
    (run st routes) hi1 hio hF.2.1 (hi1.upOwned _ _ hE.1).1 (hi1.downOwned _ _ hE.2).1
  have hfin : fin = run (run st routes) ios := run_append st routes ios
  have hfu : mapGet fin.manager.userUplink u = some pu := by rw [hfin, hT.1]; exact hE.1
  have hfd : mapGet fin.manager.userDownlink u = some pd := by rw [hfin, hT.1]; exact hE.2
  have hifin : Inv fin.manager fin.heap := by rw [hfin]; exact run_inv _ ios hi1
  have hlu : atomicLoad fin.heap pu = (readTotal ios : Int) := by
    rw [hfin, hT.2.2.1, hF.2.2.2 pu, hzu, Int.zero_add]
    exact wrapInt64_of_range _ (by omega) (by exact_mod_cast hr)
  have hld : atomicLoad fin.heap pd = (writeTotal ios : Int) := by
    rw [hfin, hT.2.2.2, hF.2.2.2 pd, hzd, Int.zero_add]
    exact wrapInt64_of_range _ (by omega) (by exact_mod_cast hw)
  have hcount := registry_count_one fin.manager fin.heap u pu hifin hfu
  have hxu := (step_mono fin extra u).1 pu hfu
  have hxd := (step_mono fin extra u).2 pd hfd
  have hxl := step_load_of_managerOp fin extra (routes_isManagerOp extra u hextra)
  refine ⟨?_, hF.2.1, hcount.1, hcount.2, ?_, hxu, hxd, ?_⟩
  · intro j h1 h2
    have hlen : 1 ≤ (routes.take j).length := by
      rw [List.length_take]; omega
    have hmem : ∀ e ∈ routes.take j, e.routes u = true :=
      fun e he => hroutes e (List.mem_of_mem_take he)
    have hEj := hentry (routes.take j) hlen hmem
    have hFj := run_routes_feeds u (routes.take j) st hi hm hmem pu pd hEj.1 hEj.2
    have hij := run_inv st (routes.take j) hi
    have hc := registry_count_one _ _ u pu hij hEj.1
    exact ⟨hEj.1, hEj.2, by rw [hFj.2.2.2 pu]; exact hzu, by rw [hFj.2.2.2 pd]; exact hzd,
      hc.1, hc.2⟩
  · rw [ReadUser_of_some _ _ u pu pd hfu hfd, hlu, hld]
  · rw [ReadUser_of_some _ _ u pu pd hxu hxd, hxl pu, hxl pd, hlu, hld]

/-- The witness of C9: two connections of `"alice"`, one of each kind, with
their transfers interleaved. -/
theorem C9_one_pair_per_user_witness :
    ReadUser
      (run (run (boot [⟨"in-ss", "shadowsocks"⟩]) [.updateUsers ["alice"]])
        ([.routedConnection ⟨"in-ss", "alice"⟩ 1, .routedPacketConnection ⟨"other", "alice"⟩ 2]
          ++ [.read 0 10, .read 1 5, .write 1 7, .write 0 3])).manager
      (run (run (boot [⟨"in-ss", "shadowsocks"⟩]) [.updateUsers ["alice"]])
        ([.routedConnection ⟨"in-ss", "alice"⟩ 1, .routedPacketConnection ⟨"other", "alice"⟩ 2]
          ++ [.read 0 10, .read 1 5, .write 1 7, .write 0 3])).heap
      "alice" = (15, 10) :=
  (C9_one_pair_per_user [⟨"in-ss", "shadowsocks"⟩] [.updateUsers ["alice"]] "alice"
    [.routedConnection ⟨"in-ss", "alice"⟩ 1, .routedPacketConnection ⟨"other", "alice"⟩ 2]
    [.read 0 10, .read 1 5, .write 1 7, .write 0 3]
    (.routedConnection ⟨"in-ss", "alice"⟩ 3)
    (by decide) (by decide) (by decide) (by decide) (by decide) (by decide) (by decide)
    (by decide)).2.2.2.2.1

/-- The counterexample to C9 as stated: two connections routed for the
metered, so far unseen `"alice"` share one counter pair, the only entry of
the registry; one read of `2 ^ 62` bytes through each leaves `ReadUser` at
`(-2 ^ 63, 0)`, not at the sum `2 ^ 63` of the bytes read. -/
theorem C9_sum_of_connections_wraps :
    (run (boot [⟨"in-ss", "shadowsocks"⟩])
      [.updateUsers ["alice"], .routedConnection ⟨"in-ss", "alice"⟩ 1,
        .routedConnection ⟨"in-ss", "alice"⟩ 2]).manager.userUplink = [("alice", 2)] ∧
    (run (boot [⟨"in-ss", "shadowsocks"⟩])
      [.updateUsers ["alice"], .routedConnection ⟨"in-ss", "alice"⟩ 1,
        .routedConnection ⟨"in-ss", "alice"⟩ 2]).manager.userDownlink = [("alice", 3)] ∧
    ReadUser
        (run (boot [⟨"in-ss", "shadowsocks"⟩])
          [.updateUsers ["alice"], .routedConnection ⟨"in-ss", "alice"⟩ 1,
            .routedConnection ⟨"in-ss", "alice"⟩ 2,
            .read 0 (2 ^ 62), .read 1 (2 ^ 62)]).manager
        (run (boot [⟨"in-ss", "shadowsocks"⟩])
          [.updateUsers ["alice"], .routedConnection ⟨"in-ss", "alice"⟩ 1,
            .routedConnection ⟨"in-ss", "alice"⟩ 2,
            .read 0 (2 ^ 62), .read 1 (2 ^ 62)]).heap "alice" = (-2 ^ 63, 0) ∧
    ((-2 ^ 63 : Int), (0 : Int)) ≠
      ((readTotal [Event.read 0 (2 ^ 62), Event.read 1 (2 ^ 62)] : Int),
       (writeTotal [Event.read 0 (2 ^ 62), Event.read 1 (2 ^ 62)] : Int)) := by
  decide

end Ssmapi
